import Mathlib

set_option linter.unreachableTactic false
set_option linter.unusedTactic false

/-!
Shallow embedding of the JSON-DB GPU-resident key/value store
(src/src/Manager/GpuBufferAllocator.ts, src/src/Manager/FlushManager.ts,
src/src/Manager/SortManager.ts, src/src/IndexedDBWrapper.ts utilities,
src/unnamed/part_003 VramDataBase, src/unnamed/part_007 SerializationManager),
together with theorems settling the frozen claims about it.

Conventions.
Byte counts and offsets are Nat (the source manipulates them as non-negative
JS integers).  Device buffer contents are modelled as functions Nat → Nat
(byte address to byte value).  JS Map objects are modelled as insertion-ordered
association lists.  JS exceptions are modelled with Except or with an
explicit error component where mutations made before the throw must survive.
-/

namespace JsonDb

/-- utils.ts roundUp: Math.ceil(value / align) * align, on naturals. -/
def roundUp (value align : Nat) : Nat :=
  ((value + align - 1) / align) * align

/-- utils.ts ROW_INACTIVE_FLAG = 0x1. -/
def ROW_INACTIVE_FLAG : Nat := 0x1

theorem roundUp_ge (value : Nat) : value ≤ roundUp value 256 := by
  unfold roundUp
  omega

theorem roundUp_mod (value : Nat) : roundUp value 256 % 256 = 0 := by
  unfold roundUp
  omega

theorem roundUp_le_of_le {value cap : Nat} (h : value ≤ cap) (hc : cap % 256 = 0) :
    roundUp value 256 ≤ cap := by
  unfold roundUp
  omega

/-! ## JS Map objects (insertion ordered association lists)

`Map.get`, `Map.set`, `Map.keys` of the JavaScript runtime, used by the source
for `storeMetadataMap`, `storeKeyMap` and the per store key maps.  `set` on an
existing key updates it in place, otherwise appends. -/

def mapGet {α : Type} (m : List (String × α)) (k : String) : Option α :=
  match m.find? (fun p => p.1 == k) with
  | some p => some p.2
  | none => none

def mapSet {α : Type} (m : List (String × α)) (k : String) (v : α) :
    List (String × α) :=
  if m.any (fun p => p.1 == k) then
    m.map (fun p => if p.1 == k then (k, v) else p)
  else
    m ++ [(k, v)]

def mapKeys {α : Type} (m : List (String × α)) : List String :=
  m.map (·.1)

/-! ## types/StoreMetadata.ts -/

inductive DataType where
  | TypedArray
  | ArrayBuffer
  | JSON
deriving DecidableEq, Repr

inductive TypedArrayType where
  | Float32Array
  | Float64Array
  | Int32Array
  | Uint32Array
  | Uint8Array
deriving DecidableEq, Repr

inductive SortDirection where
  | Asc
  | Desc
deriving DecidableEq, Repr

inductive SortFieldDataType where
  | string
  | number
  | date
deriving DecidableEq, Repr

structure SortField where
  sortColumn : String
  path : String
  sortDirection : SortDirection
  dataType : SortFieldDataType
deriving DecidableEq, Repr

structure SortDefinition where
  name : String
  sortFields : List SortField
deriving DecidableEq, Repr

/-- One GPU buffer of a store: the BufferMetadata record of the source merged
with the modelled `GPUBuffer` object it references (whose observable state is
its byte size `capacity`, the `_usedBytes` expando the allocator maintains on
it, and its byte contents `data`). -/
structure BufferMeta where
  bufferIndex : Nat
  startRow : Int
  rowCount : Nat
  capacity : Nat
  usedBytes : Nat
  data : Nat → Nat

instance : Inhabited BufferMeta :=
  ⟨{ bufferIndex := 0, startRow := -1, rowCount := 0, capacity := 0,
     usedBytes := 0, data := fun _ => 0 }⟩

/-- RowMetadata of the source; `flags` is an optional bit set. -/
structure RowMetadata where
  rowId : Nat
  bufferIndex : Nat
  offset : Nat
  length : Nat
  flags : Option Nat := none
deriving DecidableEq, Repr, Inhabited

/-- StoreMetadata of the source.  `sortDefinition` is the internal list the
constructor produces (always present, possibly empty). -/
structure StoreMetadata where
  storeName : String
  dataType : DataType
  typedArrayType : Option TypedArrayType
  bufferSize : Nat
  rowSize : Option Nat
  rowsPerBuffer : Option Nat
  totalRows : Nat
  buffers : List BufferMeta
  rows : List RowMetadata
  sortDefinition : List SortDefinition
  sortsDirty : Bool

/-- Row flag test used throughout the source:
`(rowMetadata.flags ?? 0) & ROW_INACTIVE_FLAG`. -/
def rowInactive (r : RowMetadata) : Bool :=
  (r.flags.getD 0) &&& ROW_INACTIVE_FLAG != 0

/-! ## GpuBufferAllocator (src/src/Manager/GpuBufferAllocator.ts)

`findOrCreateSpace` and its helpers.  Each returns the updated store metadata
together with the chosen `(bufferIndex, offset)`; the returned `gpuBuffer`
reference of the source is recoverable from the index, so it is not repeated
in the result. -/

/-- Replace the last element of a list (helper for mutating the last buffer
in place, as the source does through the `lastBufferMeta` reference). -/
def setLast {α : Type} (l : List α) (x : α) : List α :=
  l.set (l.length - 1) x

/-- allocateFirstBufferChunk: create the first buffer of a store.  The source
pushes the buffer with `rowCount: 0`, then sets `_usedBytes = size` and
increments `buffers[0].rowCount`. -/
def allocateFirstBufferChunk (storeMeta : StoreMetadata) (size : Nat) :
    StoreMetadata × Nat × Nat :=
  let neededCapacity := max storeMeta.bufferSize (roundUp size 256)
  let gpuBuffer : BufferMeta :=
    { bufferIndex := 0, startRow := -1, rowCount := 0,
      capacity := neededCapacity, usedBytes := 0, data := fun _ => 0 }
  let buffers1 := storeMeta.buffers ++ [gpuBuffer]
  let buffers2 := buffers1.map (fun b =>
    if b.bufferIndex == 0 then { b with usedBytes := size, rowCount := b.rowCount + 1 }
    else b)
  ({ storeMeta with buffers := buffers2 }, 0, 0)

/-- allocateNewBufferChunk: append a fresh buffer when the last one is full. -/
def allocateNewBufferChunk (storeMeta : StoreMetadata) (size : Nat) :
    StoreMetadata × Nat × Nat :=
  let newBufferIndex := storeMeta.buffers.length
  let neededCapacity := max storeMeta.bufferSize (roundUp size 256)
  let newGpuBuffer : BufferMeta :=
    { bufferIndex := newBufferIndex, startRow := -1, rowCount := 1,
      capacity := neededCapacity, usedBytes := size, data := fun _ => 0 }
  ({ storeMeta with buffers := storeMeta.buffers ++ [newGpuBuffer] },
   newBufferIndex, 0)

/-- useSpaceInLastBuffer: align the write offset to the 256 byte ALIGNMENT
inside the last buffer (`alignedOffset = roundUp usedBytes 256`), falling back
to a new chunk when the aligned range does not fit the actual buffer
capacity (`gpuBuffer.size`). -/
def useSpaceInLastBuffer (storeMeta : StoreMetadata) (lastBufferMeta : BufferMeta)
    (usedBytes size : Nat) : StoreMetadata × Nat × Nat :=
  if roundUp usedBytes 256 + size > lastBufferMeta.capacity then
    allocateNewBufferChunk storeMeta size
  else
    ({ storeMeta with
        buffers := setLast storeMeta.buffers
          { lastBufferMeta with
              usedBytes := roundUp usedBytes 256 + size,
              rowCount := lastBufferMeta.rowCount + 1 } },
     lastBufferMeta.bufferIndex, roundUp usedBytes 256)

/-- getLastBufferUsage followed by the branch of findOrCreateSpace.  Note the
source compares the raw `usedBytes + size` against `storeMeta.bufferSize` (the
default capacity), not against the actual size of the last buffer. -/
def findOrCreateSpace (storeMeta : StoreMetadata) (size : Nat) :
    StoreMetadata × Nat × Nat :=
  if storeMeta.buffers.isEmpty then
    allocateFirstBufferChunk storeMeta size
  else
    if (storeMeta.buffers.getLastD default).usedBytes + size ≤ storeMeta.bufferSize then
      useSpaceInLastBuffer storeMeta (storeMeta.buffers.getLastD default)
        (storeMeta.buffers.getLastD default).usedBytes size
    else
      allocateNewBufferChunk storeMeta size

/-- getBufferByIndex: array access `storeMeta.buffers[bufferIndex]`, throwing
when absent. -/
def getBufferByIndex (storeMeta : StoreMetadata) (bufferIndex : Nat) :
    Except String BufferMeta :=
  match storeMeta.buffers.get? bufferIndex with
  | some b => Except.ok b
  | none => Except.error ("Buffer index not found or uninitialized.")

/-! ## Allocator invariants

`StoreStrong` is the inductive invariant the operations maintain; it implies
the properties named by the specification (256 byte alignment, extents inside
the chunk, `used_bytes ≤ capacity`, positional buffer indices, positional row
ids). -/

def StoreStrong (sm : StoreMetadata) : Prop :=
  (∀ i < sm.buffers.length, (sm.buffers.getD i default).bufferIndex = i) ∧
  (∀ b ∈ sm.buffers, b.usedBytes ≤ b.capacity) ∧
  (∀ r ∈ sm.rows,
    r.offset % 256 = 0 ∧
    r.bufferIndex < sm.buffers.length ∧
    r.offset + r.length ≤ (sm.buffers.getD r.bufferIndex default).usedBytes) ∧
  (∀ i < sm.rows.length, (sm.rows.getD i default).rowId = i + 1)

/-- The row and chunk conditions of the claim: every handed out row is 256
byte aligned and lies within the capacity of its chunk, and no chunk uses
more bytes than its capacity. -/
def StoreClaimOk (sm : StoreMetadata) : Prop :=
  (∀ r ∈ sm.rows,
    r.offset % 256 = 0 ∧
    r.bufferIndex < sm.buffers.length ∧
    r.offset + r.length ≤ (sm.buffers.getD r.bufferIndex default).capacity) ∧
  (∀ b ∈ sm.buffers, b.usedBytes ≤ b.capacity)

theorem storeStrong_claimOk {sm : StoreMetadata} (h : StoreStrong sm) :
    StoreClaimOk sm := by
  obtain ⟨_hidx, hused, hrows, _hrid⟩ := h
  refine ⟨fun r hr => ?_, hused⟩
  obtain ⟨h1, h2, h3⟩ := hrows r hr
  refine ⟨h1, h2, le_trans h3 ?_⟩
  rw [List.getD_eq_getElem _ _ h2]
  exact hused _ (List.getElem_mem h2)

/-- What one allocator call guarantees: the strong invariant is preserved, the
returned offset is 256 byte aligned and the requested range fits inside the
used bytes of the returned chunk, rows and the default capacity are untouched,
and the used bytes of every pre-existing chunk only grow. -/
def allocResultOk (sm : StoreMetadata) (size : Nat)
    (res : StoreMetadata × Nat × Nat) : Prop :=
  StoreStrong res.1 ∧
  res.2.2 % 256 = 0 ∧
  res.1.rows = sm.rows ∧
  res.1.bufferSize = sm.bufferSize ∧
  res.2.1 < res.1.buffers.length ∧
  res.2.2 + size ≤ (res.1.buffers.getD res.2.1 default).usedBytes ∧
  sm.buffers.length ≤ res.1.buffers.length ∧
  (∀ i, i < sm.buffers.length →
     (sm.buffers.getD i default).usedBytes ≤ (res.1.buffers.getD i default).usedBytes)

theorem size_le_neededCapacity (bufferSize size : Nat) :
    size ≤ max bufferSize (roundUp size 256) :=
  le_trans (roundUp_ge size) (le_max_right _ _)

/-- The buffer produced by allocateFirstBufferChunk on an empty store. -/
def firstChunk (bufferSize size : Nat) : BufferMeta :=
  { bufferIndex := 0, startRow := -1, rowCount := 1,
    capacity := max bufferSize (roundUp size 256), usedBytes := size,
    data := fun _ => 0 }

theorem getD_set_ne {α : Type} [Inhabited α] (l : List α) (n i : Nat) (x : α)
    (h : i ≠ n) : (l.set n x).getD i default = l.getD i default := by
  rw [List.getD_eq_getD_get?, List.getD_eq_getD_get?, List.get?_eq_getElem?,
    List.get?_eq_getElem?, List.getElem?_set_ne (by omega)]

theorem getD_set_self {α : Type} [Inhabited α] (l : List α) (n : Nat) (x : α)
    (h : n < l.length) : (l.set n x).getD n default = x := by
  rw [List.getD_eq_getD_get?, List.get?_eq_getElem?, List.getElem?_set_self h]
  rfl

theorem allocateFirstBufferChunk_ok (sm : StoreMetadata) (size : Nat)
    (hb : sm.buffers = []) (h : StoreStrong sm) :
    allocResultOk sm size (allocateFirstBufferChunk sm size) := by
  obtain ⟨hidx, hused, hrows, hrid⟩ := h
  have hres : allocateFirstBufferChunk sm size =
      ({ sm with buffers := [firstChunk sm.bufferSize size] }, 0, 0) := by
    unfold allocateFirstBufferChunk firstChunk
    simp [hb]
  rw [hres]
  unfold allocResultOk
  refine ⟨⟨?_, ?_, ?_, ?_⟩, ?_, ?_, ?_, ?_, ?_, ?_, ?_⟩
  · intro i hi
    simp only [List.length_singleton] at hi
    have : i = 0 := by omega
    subst this
    rfl
  · intro b hb2
    simp only [List.mem_singleton] at hb2
    subst hb2
    exact size_le_neededCapacity _ _
  · intro r hr
    have := (hrows r hr).2.1
    rw [hb] at this
    simp at this
  · exact hrid
  · rfl
  · rfl
  · rfl
  · simp
  · simp [List.getD, firstChunk]
  · simp [hb]
  · intro i hi
    rw [hb] at hi
    simp at hi

theorem allocateNewBufferChunk_ok (sm : StoreMetadata) (size : Nat)
    (h : StoreStrong sm) :
    allocResultOk sm size (allocateNewBufferChunk sm size) := by
  obtain ⟨hidx, hused, hrows, hrid⟩ := h
  unfold allocateNewBufferChunk allocResultOk
  refine ⟨⟨?_, ?_, ?_, ?_⟩, ?_, ?_, ?_, ?_, ?_, ?_, ?_⟩
  · intro i hi
    simp only [List.length_append, List.length_singleton] at hi
    rcases Nat.lt_or_ge i sm.buffers.length with hlt | hge
    · rw [List.getD_append _ _ _ _ hlt]
      exact hidx i hlt
    · have hie : i = sm.buffers.length := by omega
      subst hie
      rw [List.getD_append_right _ _ _ _ (le_refl _)]
      simp
  · intro b hb2
    rcases List.mem_append.mp hb2 with hb3 | hb3
    · exact hused b hb3
    · simp only [List.mem_singleton] at hb3
      subst hb3
      exact size_le_neededCapacity _ _
  · intro r hr
    obtain ⟨h1, h2, h3⟩ := hrows r hr
    refine ⟨h1, by simp; omega, ?_⟩
    rwa [List.getD_append _ _ _ _ h2]
  · exact hrid
  · rfl
  · rfl
  · rfl
  · simp
  · rw [List.getD_append_right _ _ _ _ (le_refl _)]
    simp
  · simp
  · intro i hi
    rw [List.getD_append _ _ _ _ hi]

theorem useSpaceInLastBuffer_ok (sm : StoreMetadata) (size : Nat)
    (hne : sm.buffers ≠ []) (h : StoreStrong sm) :
    allocResultOk sm size
      (useSpaceInLastBuffer sm (sm.buffers.getLastD default)
        (sm.buffers.getLastD default).usedBytes size) := by
  have hlen : 0 < sm.buffers.length := List.length_pos.mpr hne
  have hlast : sm.buffers.getLastD default =
      sm.buffers.getD (sm.buffers.length - 1) default := by
    rw [List.getLastD_eq_getLast?, List.getLast?_eq_getLast_of_ne_nil hne,
      Option.getD_some, List.getLast_eq_getElem,
      List.getD_eq_getElem _ _ (by omega)]
  obtain ⟨hidx, hused, hrows, hrid⟩ := h
  have hidxlast : (sm.buffers.getLastD default).bufferIndex =
      sm.buffers.length - 1 := by
    rw [hlast]
    exact hidx (sm.buffers.length - 1) (by omega)
  unfold useSpaceInLastBuffer
  by_cases hover : roundUp (sm.buffers.getLastD default).usedBytes 256 + size >
      (sm.buffers.getLastD default).capacity
  · rw [if_pos hover]
    exact allocateNewBufferChunk_ok sm size ⟨hidx, hused, hrows, hrid⟩
  · rw [if_neg hover]
    push_neg at hover
    unfold allocResultOk setLast
    refine ⟨⟨?_, ?_, ?_, ?_⟩, ?_, ?_, ?_, ?_, ?_, ?_, ?_⟩
    · intro i hi
      rw [List.length_set] at hi
      by_cases hie : i = sm.buffers.length - 1
      · subst hie
        rw [getD_set_self _ _ _ (by omega)]
        exact hidxlast
      · rw [getD_set_ne _ _ _ _ hie]
        exact hidx i hi
    · intro b hb2
      rcases List.mem_or_eq_of_mem_set hb2 with hb3 | hb3
      · exact hused b hb3
      · subst hb3
        simpa using hover
    · intro r hr
      obtain ⟨h1, h2, h3⟩ := hrows r hr
      refine ⟨h1, by rw [List.length_set]; exact h2, ?_⟩
      by_cases hre : r.bufferIndex = sm.buffers.length - 1
      · rw [hre, getD_set_self _ _ _ (by omega)]
        have hle : r.offset + r.length ≤
            (sm.buffers.getLastD default).usedBytes := by
          rw [hlast]
          rw [hre] at h3
          exact h3
        have := roundUp_ge (sm.buffers.getLastD default).usedBytes
        simp only []
        omega
      · rw [getD_set_ne _ _ _ _ hre]
        exact h3
    · exact hrid
    · exact roundUp_mod _
    · rfl
    · rfl
    · simp only [List.length_set]
      omega
    · simp only []
      rw [hidxlast, getD_set_self _ _ _ (by omega)]
    · simp [List.length_set]
    · intro i hi
      by_cases hie : i = sm.buffers.length - 1
      · subst hie
        rw [getD_set_self _ _ _ (by omega), ← hlast]
        have := roundUp_ge (sm.buffers.getLastD default).usedBytes
        simp only []
        omega
      · rw [getD_set_ne _ _ _ _ hie]

/-- findOrCreateSpace establishes `allocResultOk` whenever the strong
invariant holds. -/
theorem findOrCreateSpace_ok (sm : StoreMetadata) (size : Nat)
    (h : StoreStrong sm) :
    allocResultOk sm size (findOrCreateSpace sm size) := by
  unfold findOrCreateSpace
  by_cases hb : sm.buffers.isEmpty
  · simp only [hb, if_true]
    exact allocateFirstBufferChunk_ok sm size (List.isEmpty_iff.mp hb) h
  · simp only [hb, if_false]
    have hne : sm.buffers ≠ [] := by
      intro hcon
      rw [hcon] at hb
      simp at hb
    by_cases hcap : (sm.buffers.getLastD default).usedBytes + size ≤ sm.bufferSize
    · simp only [hcap, if_true]
      exact useSpaceInLastBuffer_ok sm size hne h
    · simp only [hcap, if_false]
      exact allocateNewBufferChunk_ok sm size h

/-! ## Claim C4: the chunk reuse condition of findOrCreateSpace

The code reuses the last chunk only when BOTH `usedBytes + size ≤ bufferSize`
(raw bytes against the default capacity) AND
`roundUp usedBytes 256 + size ≤ capacity` (aligned bytes against the actual
capacity) hold; the claim names only the second condition. -/

/-- A fresh ArrayBuffer store with default capacity 256 bytes, used to build
the C4 counterexample state. -/
def storeC4base : StoreMetadata :=
  { storeName := "S", dataType := DataType.ArrayBuffer, typedArrayType := none,
    bufferSize := 256, rowSize := none, rowsPerBuffer := none, totalRows := 10,
    buffers := [], rows := [], sortDefinition := [], sortsDirty := false }

/-- The state after one 512 byte allocation: a single oversized chunk of
capacity 512 with all 512 bytes used. -/
def storeC4 : StoreMetadata := (findOrCreateSpace storeC4base 512).1

/-- Claim C4, counterexample.  In `storeC4` the last (only) chunk satisfies
`roundUp used 256 + required ≤ capacity` for a zero byte request, so the claim
predicts reuse of that chunk at offset 512; the code instead compares
`used + required` with the default capacity 256, fails, and allocates a second
chunk, returning buffer index 1 at offset 0. -/
theorem c4_counterexample :
    storeC4.buffers.length = 1 ∧
    roundUp (storeC4.buffers.getLastD default).usedBytes 256 + 0 ≤
      (storeC4.buffers.getLastD default).capacity ∧
    (findOrCreateSpace storeC4 0).1.buffers.length = 2 ∧
    (findOrCreateSpace storeC4 0).2.1 = 1 ∧
    (findOrCreateSpace storeC4 0).2.2 = 0 := by
  refine ⟨rfl, by decide, rfl, rfl, rfl⟩

/-- Claim C4, amended.  For a store that already has at least one chunk,
findOrCreateSpace reuses the last chunk exactly when
`used_bytes + required ≤ default_capacity` AND
`round_up(used_bytes,256) + required ≤ actual chunk capacity`; in that case it
sets `used_bytes := round_up(used_bytes,256) + required` and returns
`offset = round_up(used_bytes,256)` on the same chunk, and otherwise it
allocates a new chunk of capacity `max(default_capacity, round_up(required,
256))` with `used_bytes := required`, returning offset 0. -/
theorem c4_amended (sm : StoreMetadata) (size : Nat) (hne : sm.buffers ≠ []) :
    ((sm.buffers.getLastD default).usedBytes + size ≤ sm.bufferSize ∧
     roundUp (sm.buffers.getLastD default).usedBytes 256 + size ≤
       (sm.buffers.getLastD default).capacity →
     findOrCreateSpace sm size =
       ({ sm with
            buffers := setLast sm.buffers
              { sm.buffers.getLastD default with
                  usedBytes :=
                    roundUp (sm.buffers.getLastD default).usedBytes 256 + size,
                  rowCount := (sm.buffers.getLastD default).rowCount + 1 } },
        (sm.buffers.getLastD default).bufferIndex,
        roundUp (sm.buffers.getLastD default).usedBytes 256)) ∧
    (¬ ((sm.buffers.getLastD default).usedBytes + size ≤ sm.bufferSize ∧
        roundUp (sm.buffers.getLastD default).usedBytes 256 + size ≤
          (sm.buffers.getLastD default).capacity) →
     findOrCreateSpace sm size =
       ({ sm with
            buffers := sm.buffers ++
              [{ bufferIndex := sm.buffers.length, startRow := -1, rowCount := 1,
                 capacity := max sm.bufferSize (roundUp size 256),
                 usedBytes := size, data := fun _ => 0 }] },
        sm.buffers.length, 0)) := by
  have hb : sm.buffers.isEmpty = false := by
    cases hbuf : sm.buffers with
    | nil => exact absurd hbuf hne
    | cons x xs => rfl
  constructor
  · rintro ⟨h1, h2⟩
    unfold findOrCreateSpace
    rw [hb]
    simp only [Bool.false_eq_true, if_false, if_pos h1]
    unfold useSpaceInLastBuffer
    rw [if_neg (by omega)]
  · intro hno
    have hnew : allocateNewBufferChunk sm size =
        ({ sm with
            buffers := sm.buffers ++
              [{ bufferIndex := sm.buffers.length, startRow := -1, rowCount := 1,
                 capacity := max sm.bufferSize (roundUp size 256),
                 usedBytes := size, data := fun _ => 0 }] },
         sm.buffers.length, 0) := by
      unfold allocateNewBufferChunk
      rfl
    unfold findOrCreateSpace
    rw [hb]
    simp only [Bool.false_eq_true, if_false]
    by_cases h1 : (sm.buffers.getLastD default).usedBytes + size ≤ sm.bufferSize
    · rw [if_pos h1]
      unfold useSpaceInLastBuffer
      rw [if_pos (by omega), hnew]
    · rw [if_neg h1, hnew]

/-- A one chunk store (capacity 1024, 4 bytes used) on which the amended C4
reuse branch fires. -/
def storeC4w : StoreMetadata :=
  { storeName := "W", dataType := DataType.ArrayBuffer, typedArrayType := none,
    bufferSize := 1024, rowSize := none, rowsPerBuffer := none, totalRows := 10,
    buffers := [{ bufferIndex := 0, startRow := -1, rowCount := 1,
                  capacity := 1024, usedBytes := 4, data := fun _ => 0 }],
    rows := [{ rowId := 1, bufferIndex := 0, offset := 0, length := 4 }],
    sortDefinition := [], sortsDirty := false }

/-- Claim C4, witness for the amended theorem: on `storeC4w` an 8 byte request
reuses the chunk at aligned offset 256. -/
theorem c4_amended_witness :
    (findOrCreateSpace storeC4w 8).2.2 = 256 ∧
    ((findOrCreateSpace storeC4w 8).1.buffers.getD 0 default).usedBytes = 264 := by
  have h := (c4_amended storeC4w 8 (List.cons_ne_nil _ _)).1 ⟨by decide, by decide⟩
  rw [h]
  exact ⟨by decide, by decide⟩

/-! ## UTF-8 (TextEncoder / TextDecoder of the host platform)

The source serializes JSON text through TextEncoder and decodes through
TextDecoder.  Bytes are Nat values below 256.  Decoding of invalid sequences
emits U+FFFD replacement characters; the exact resynchronisation of the WHATWG
algorithm on malformed input is approximated (it is never reached on bytes the
encoder produced). -/

def utf8EncodeChar (c : Char) : List Nat :=
  if c.toNat < 0x80 then [c.toNat]
  else if c.toNat < 0x800 then [0xC0 + c.toNat / 64, 0x80 + c.toNat % 64]
  else if c.toNat < 0x10000 then
    [0xE0 + c.toNat / 4096, 0x80 + (c.toNat / 64) % 64, 0x80 + c.toNat % 64]
  else
    [0xF0 + c.toNat / 262144, 0x80 + (c.toNat / 4096) % 64,
     0x80 + (c.toNat / 64) % 64, 0x80 + c.toNat % 64]

def utf8Encode (cs : List Char) : List Nat :=
  cs.flatMap utf8EncodeChar

def replacementChar : Char := Char.ofNat 0xFFFD

def mkCharLossy (n : Nat) : Char :=
  if n.isValidChar then Char.ofNat n else replacementChar

def isUtf8Cont (b : Nat) : Prop := 0x80 ≤ b ∧ b < 0xC0

instance (b : Nat) : Decidable (isUtf8Cont b) := by
  unfold isUtf8Cont
  infer_instance

def utf8DecodeAux : Nat → List Nat → List Char
  | 0, _ => []
  | _+1, [] => []
  | fuel+1, b :: rest =>
    if b < 0x80 then
      mkCharLossy b :: utf8DecodeAux fuel rest
    else if 0xC0 ≤ b ∧ b < 0xE0 then
      match rest with
      | b1 :: rest1 =>
        if isUtf8Cont b1 then
          let cp := (b - 0xC0) * 64 + (b1 - 0x80)
          if 0x80 ≤ cp then mkCharLossy cp :: utf8DecodeAux fuel rest1
          else replacementChar :: utf8DecodeAux fuel rest1
        else replacementChar :: utf8DecodeAux fuel rest
      | [] => [replacementChar]
    else if 0xE0 ≤ b ∧ b < 0xF0 then
      match rest with
      | b1 :: b2 :: rest2 =>
        if isUtf8Cont b1 ∧ isUtf8Cont b2 then
          let cp := (b - 0xE0) * 4096 + (b1 - 0x80) * 64 + (b2 - 0x80)
          if 0x800 ≤ cp ∧ (cp < 0xD800 ∨ 0xDFFF < cp) then
            mkCharLossy cp :: utf8DecodeAux fuel rest2
          else replacementChar :: utf8DecodeAux fuel rest2
        else replacementChar :: utf8DecodeAux fuel rest
      | _ => [replacementChar]
    else if 0xF0 ≤ b ∧ b < 0xF8 then
      match rest with
      | b1 :: b2 :: b3 :: rest3 =>
        if isUtf8Cont b1 ∧ isUtf8Cont b2 ∧ isUtf8Cont b3 then
          let cp := (b - 0xF0) * 262144 + (b1 - 0x80) * 4096 +
            (b2 - 0x80) * 64 + (b3 - 0x80)
          if 0x10000 ≤ cp ∧ cp < 0x110000 then
            mkCharLossy cp :: utf8DecodeAux fuel rest3
          else replacementChar :: utf8DecodeAux fuel rest3
        else replacementChar :: utf8DecodeAux fuel rest
      | _ => [replacementChar]
    else
      replacementChar :: utf8DecodeAux fuel rest

def utf8Decode (bs : List Nat) : List Char :=
  utf8DecodeAux bs.length bs

theorem char_toNat_isValid (c : Char) : c.toNat.isValidChar := by
  have := c.valid
  rcases this with h | h
  · exact Or.inl h
  · exact Or.inr ⟨h.1, h.2⟩

theorem mkCharLossy_toNat (c : Char) : mkCharLossy c.toNat = c := by
  unfold mkCharLossy
  rw [if_pos (char_toNat_isValid c)]
  exact Char.ofNat_toNat c

theorem char_toNat_lt (c : Char) : c.toNat < 0x110000 := by
  rcases char_toNat_isValid c with h | h
  · omega
  · exact h.2

theorem char_not_surrogate (c : Char) :
    c.toNat < 0xD800 ∨ 0xDFFF < c.toNat := by
  rcases char_toNat_isValid c with h | h
  · exact Or.inl h
  · exact Or.inr h.1

theorem utf8EncodeChar_length_pos (c : Char) :
    0 < (utf8EncodeChar c).length := by
  unfold utf8EncodeChar
  split
  · simp
  · split
    · simp
    · split <;> simp

/-- Decoding one encoded character off the front of a byte stream recovers the
character. -/
theorem utf8DecodeAux_encodeChar (c : Char) (rest : List Nat) (fuel : Nat) :
    utf8DecodeAux (fuel + 1) (utf8EncodeChar c ++ rest) =
      c :: utf8DecodeAux fuel rest := by
  have hval := char_toNat_isValid c
  have hlt := char_toNat_lt c
  have hsur := char_not_surrogate c
  unfold utf8EncodeChar
  by_cases h1 : c.toNat < 0x80
  · rw [if_pos h1]
    show utf8DecodeAux (fuel + 1) (c.toNat :: rest) = _
    simp only [utf8DecodeAux]
    rw [if_pos h1, mkCharLossy_toNat]
  · rw [if_neg h1]
    by_cases h2 : c.toNat < 0x800
    · rw [if_pos h2]
      show utf8DecodeAux (fuel + 1)
        ((0xC0 + c.toNat / 64) :: (0x80 + c.toNat % 64) :: rest) = _
      conv_lhs => rw [utf8DecodeAux]
      dsimp only
      rw [if_neg (by omega), if_pos (by omega)]
      rw [if_pos (by unfold isUtf8Cont; omega)]
      have hcp : (0xC0 + c.toNat / 64 - 0xC0) * 64 +
          (0x80 + c.toNat % 64 - 0x80) = c.toNat := by omega
      rw [hcp, if_pos (by omega), mkCharLossy_toNat]
    · rw [if_neg h2]
      by_cases h3 : c.toNat < 0x10000
      · rw [if_pos h3]
        show utf8DecodeAux (fuel + 1)
          ((0xE0 + c.toNat / 4096) :: (0x80 + (c.toNat / 64) % 64) ::
            (0x80 + c.toNat % 64) :: rest) = _
        conv_lhs => rw [utf8DecodeAux]
        dsimp only
        rw [if_neg (by omega), if_neg (by omega), if_pos (by omega)]
        rw [if_pos (by unfold isUtf8Cont; constructor <;> omega)]
        have hcp : (0xE0 + c.toNat / 4096 - 0xE0) * 4096 +
            (0x80 + (c.toNat / 64) % 64 - 0x80) * 64 +
            (0x80 + c.toNat % 64 - 0x80) = c.toNat := by omega
        rw [hcp]
        rw [if_pos (by omega)]
        rw [mkCharLossy_toNat]
      · rw [if_neg h3]
        show utf8DecodeAux (fuel + 1)
          ((0xF0 + c.toNat / 262144) :: (0x80 + (c.toNat / 4096) % 64) ::
            (0x80 + (c.toNat / 64) % 64) :: (0x80 + c.toNat % 64) :: rest) = _
        conv_lhs => rw [utf8DecodeAux]
        dsimp only
        rw [if_neg (by omega), if_neg (by omega), if_neg (by omega),
          if_pos (by omega)]
        rw [if_pos (by unfold isUtf8Cont; refine ⟨⟨?_, ?_⟩, ⟨?_, ?_⟩, ?_, ?_⟩ <;> omega)]
        have hcp : (0xF0 + c.toNat / 262144 - 0xF0) * 262144 +
            (0x80 + (c.toNat / 4096) % 64 - 0x80) * 4096 +
            (0x80 + (c.toNat / 64) % 64 - 0x80) * 64 +
            (0x80 + c.toNat % 64 - 0x80) = c.toNat := by omega
        rw [hcp]
        rw [if_pos (by omega)]
        rw [mkCharLossy_toNat]

theorem utf8DecodeAux_encode (cs : List Char) :
    ∀ fuel, (utf8Encode cs).length ≤ fuel →
      utf8DecodeAux fuel (utf8Encode cs) = cs := by
  induction cs with
  | nil =>
    intro fuel _
    cases fuel <;> rfl
  | cons c cs ih =>
    intro fuel hf
    have henc : utf8Encode (c :: cs) = utf8EncodeChar c ++ utf8Encode cs := by
      unfold utf8Encode
      simp
    rw [henc] at hf ⊢
    have hpos := utf8EncodeChar_length_pos c
    have hfpos : 1 ≤ fuel := by
      rw [List.length_append] at hf
      omega
    obtain ⟨f, rfl⟩ : ∃ f, fuel = f + 1 := ⟨fuel - 1, by omega⟩
    rw [utf8DecodeAux_encodeChar]
    rw [ih f (by rw [List.length_append] at hf; omega)]

/-- TextDecoder inverts TextEncoder. -/
theorem utf8Decode_encode (cs : List Char) :
    utf8Decode (utf8Encode cs) = cs :=
  utf8DecodeAux_encode cs _ (le_refl _)

/-! ## JSON values (JSON.stringify / JSON.parse of the host platform)

The payload values a JSON store holds.  Numbers are modelled as integers;
fractional and exponential literals denote IEEE doubles, which are outside
this embedding (the machine float layer is exactly what the specification
flags as unportable).  Object member lists keep insertion order, matching
JavaScript object property order as observed by JSON.stringify. -/

mutual
inductive JVal where
  | null
  | bool (b : Bool)
  | num (n : Int)
  | str (s : List Char)
  | arr (elems : JArr)
  | obj (fields : JObj)
inductive JArr where
  | nil
  | cons (hd : JVal) (tl : JArr)
inductive JObj where
  | nil
  | cons (key : List Char) (val : JVal) (tl : JObj)
end

/-- Decimal digit character. -/
def digitChar (n : Nat) : Char := Char.ofNat (48 + n)

def natToCharsAux : Nat → Nat → List Char
  | 0, _ => []
  | fuel+1, n =>
    if n < 10 then [digitChar n]
    else natToCharsAux fuel (n / 10) ++ [digitChar (n % 10)]

/-- Decimal digits of a natural number, most significant first. -/
def natToChars (n : Nat) : List Char := natToCharsAux (n + 1) n

/-- Decimal rendering of an integer, as JSON.stringify prints integral
numbers (integers of magnitude at least 1e21 would print in exponent form in
JavaScript; such values are outside the integer fragment modelled here). -/
def intToChars (n : Int) : List Char :=
  if n < 0 then '-' :: natToChars n.natAbs else natToChars n.toNat

/-- Lowercase hexadecimal digit, as used by JSON.stringify control character
escapes. -/
def hexDigitChar (n : Nat) : Char :=
  if n < 10 then digitChar n else Char.ofNat (87 + n)

/-- JSON.stringify escaping of one character of a string value. -/
def escapeChar (c : Char) : List Char :=
  if c = '"' then ['\\', '"']
  else if c = '\\' then ['\\', '\\']
  else if c.toNat < 0x20 then
    if c.toNat = 8 then ['\\', 'b']
    else if c.toNat = 9 then ['\\', 't']
    else if c.toNat = 10 then ['\\', 'n']
    else if c.toNat = 12 then ['\\', 'f']
    else if c.toNat = 13 then ['\\', 'r']
    else ['\\', 'u', '0', '0', hexDigitChar (c.toNat / 16),
          hexDigitChar (c.toNat % 16)]
  else [c]

def escapeString (s : List Char) : List Char := s.flatMap escapeChar

mutual
/-- JSON.stringify on the modelled value type (canonical textual encoding:
no added whitespace, object members in insertion order). -/
def stringifyVal : JVal → List Char
  | JVal.null => ['n', 'u', 'l', 'l']
  | JVal.bool true => ['t', 'r', 'u', 'e']
  | JVal.bool false => ['f', 'a', 'l', 's', 'e']
  | JVal.num n => intToChars n
  | JVal.str s => '"' :: escapeString s ++ ['"']
  | JVal.arr JArr.nil => ['[', ']']
  | JVal.arr (JArr.cons e tl) =>
    '[' :: (stringifyVal e ++ stringifyElems tl) ++ [']']
  | JVal.obj JObj.nil => ['{', '}']
  | JVal.obj (JObj.cons k v tl) =>
    '{' :: ('"' :: escapeString k ++ '"' :: ':' :: stringifyVal v ++
      stringifyMembers tl) ++ ['}']
/-- The remaining elements of an array, each preceded by a comma. -/
def stringifyElems : JArr → List Char
  | JArr.nil => []
  | JArr.cons e tl => ',' :: stringifyVal e ++ stringifyElems tl
/-- The remaining members of an object, each preceded by a comma. -/
def stringifyMembers : JObj → List Char
  | JObj.nil => []
  | JObj.cons k v tl =>
    ',' :: '"' :: escapeString k ++ '"' :: ':' :: stringifyVal v ++
      stringifyMembers tl
end

/-- Whitespace accepted by the JSON grammar (JSON.parse). -/
def isJsonWs (c : Char) : Bool :=
  c = ' ' || c = '\t' || c = '\n' || c = '\r'

def skipWs (cs : List Char) : List Char := cs.dropWhile isJsonWs

/-- Numeric value of a hexadecimal digit character. -/
def hexVal (c : Char) : Option Nat :=
  if c.isDigit then some (c.toNat - 48)
  else if 'a' ≤ c ∧ c ≤ 'f' then some (c.toNat - 87)
  else if 'A' ≤ c ∧ c ≤ 'F' then some (c.toNat - 55)
  else none

/-- Prepend a decoded character to a string parse result. -/
def consStr (c : Char) : Option (List Char × List Char) → Option (List Char × List Char)
  | some (s, r) => some (c :: s, r)
  | none => none

mutual
/-- The body of a JSON string literal after the opening quote, returning the
decoded characters and the remainder after the closing quote.  Surrogate
escape pairs combine into one character; a lone surrogate yields `none`
(JavaScript strings would keep it as an unpaired UTF-16 unit, which the
scalar value model cannot represent). -/
def parseStringBody : List Char → Option (List Char × List Char)
  | [] => none
  | c :: rest =>
    if c = '"' then some ([], rest)
    else if c = '\\' then parseEscape rest
    else if c.toNat < 0x20 then none
    else consStr c (parseStringBody rest)
/-- A backslash escape inside a string literal. -/
def parseEscape : List Char → Option (List Char × List Char)
  | [] => none
  | e :: rest1 =>
    if e = '"' then consStr '"' (parseStringBody rest1)
    else if e = '\\' then consStr '\\' (parseStringBody rest1)
    else if e = '/' then consStr '/' (parseStringBody rest1)
    else if e = 'b' then consStr (Char.ofNat 8) (parseStringBody rest1)
    else if e = 'f' then consStr (Char.ofNat 12) (parseStringBody rest1)
    else if e = 'n' then consStr '\n' (parseStringBody rest1)
    else if e = 'r' then consStr (Char.ofNat 13) (parseStringBody rest1)
    else if e = 't' then consStr '\t' (parseStringBody rest1)
    else if e = 'u' then parseUnicodeEscape rest1
    else none
/-- A `u` escape: four hexadecimal digits, possibly followed by a second
escape completing a surrogate pair. -/
def parseUnicodeEscape : List Char → Option (List Char × List Char)
  | h1 :: h2 :: h3 :: h4 :: rest2 =>
    match hexVal h1, hexVal h2, hexVal h3, hexVal h4 with
    | some d1, some d2, some d3, some d4 =>
      if d1 * 4096 + d2 * 256 + d3 * 16 + d4 < 0xD800 ∨
          0xDFFF < d1 * 4096 + d2 * 256 + d3 * 16 + d4 then
        consStr (mkCharLossy (d1 * 4096 + d2 * 256 + d3 * 16 + d4))
          (parseStringBody rest2)
      else if d1 * 4096 + d2 * 256 + d3 * 16 + d4 < 0xDC00 then
        parseLowSurrogate (d1 * 4096 + d2 * 256 + d3 * 16 + d4) rest2
      else none
    | _, _, _, _ => none
  | _ => none
/-- The low half of a surrogate pair following a high surrogate escape. -/
def parseLowSurrogate (hi : Nat) : List Char → Option (List Char × List Char)
  | u1 :: u2 :: h5 :: h6 :: h7 :: h8 :: rest3 =>
    if u1 = '\\' ∧ u2 = 'u' then
      match hexVal h5, hexVal h6, hexVal h7, hexVal h8 with
      | some e1, some e2, some e3, some e4 =>
        if 0xDC00 ≤ e1 * 4096 + e2 * 256 + e3 * 16 + e4 ∧
            e1 * 4096 + e2 * 256 + e3 * 16 + e4 < 0xE000 then
          consStr (mkCharLossy (0x10000 + (hi - 0xD800) * 1024 +
            (e1 * 4096 + e2 * 256 + e3 * 16 + e4 - 0xDC00)))
            (parseStringBody rest3)
        else none
      | _, _, _, _ => none
    else none
  | _ => none
end

def digitsToNat (ds : List Char) : Nat :=
  ds.foldl (fun acc c => acc * 10 + (c.toNat - 48)) 0

/-- A JSON number literal (integer fragment).  Fraction or exponent parts are
rejected; they denote IEEE doubles, outside this embedding.  A leading zero
followed by further digits is a syntax error, as in the JSON grammar. -/
def parseNumber : List Char → Option (JVal × List Char)
  | [] => none
  | c :: cs1 =>
    if c = '-' then
      match cs1 with
      | [] => none
      | c1 :: _ =>
        if c1.isDigit then
          match parseNumber cs1 with
          | some (JVal.num n, rest) => some (JVal.num (-n), rest)
          | _ => none
        else none
    else if c.isDigit then
      if 1 < ((c :: cs1).takeWhile Char.isDigit).length ∧
          ((c :: cs1).takeWhile Char.isDigit).headD ' ' = '0' then none
      else if ((c :: cs1).dropWhile Char.isDigit).headD ' ' = '.' ∨
          ((c :: cs1).dropWhile Char.isDigit).headD ' ' = 'e' ∨
          ((c :: cs1).dropWhile Char.isDigit).headD ' ' = 'E' then none
      else some (JVal.num (Int.ofNat (digitsToNat ((c :: cs1).takeWhile Char.isDigit))),
        (c :: cs1).dropWhile Char.isDigit)
    else none

mutual
/-- JSON.parse value parser (fuelled recursive descent). -/
def parseValue : Nat → List Char → Option (JVal × List Char)
  | 0, _ => none
  | fuel+1, cs =>
    match skipWs cs with
    | [] => none
    | c :: rest =>
      if c = 'n' then
        match rest with
        | c1 :: c2 :: c3 :: r =>
          if c1 = 'u' ∧ c2 = 'l' ∧ c3 = 'l' then some (JVal.null, r) else none
        | _ => none
      else if c = 't' then
        match rest with
        | c1 :: c2 :: c3 :: r =>
          if c1 = 'r' ∧ c2 = 'u' ∧ c3 = 'e' then some (JVal.bool true, r)
          else none
        | _ => none
      else if c = 'f' then
        match rest with
        | c1 :: c2 :: c3 :: c4 :: r =>
          if c1 = 'a' ∧ c2 = 'l' ∧ c3 = 's' ∧ c4 = 'e' then
            some (JVal.bool false, r)
          else none
        | _ => none
      else if c = '"' then
        match parseStringBody rest with
        | some (s, r) => some (JVal.str s, r)
        | none => none
      else if c = '[' then
        match skipWs rest with
        | [] => none
        | c2 :: rest2 =>
          if c2 = ']' then some (JVal.arr JArr.nil, rest2)
          else
            match parseElems fuel (c2 :: rest2) with
            | some (es, r) => some (JVal.arr es, r)
            | none => none
      else if c = '{' then
        match skipWs rest with
        | [] => none
        | c2 :: rest2 =>
          if c2 = '}' then some (JVal.obj JObj.nil, rest2)
          else
            match parseMembers fuel (c2 :: rest2) with
            | some (fs, r) => some (JVal.obj fs, r)
            | none => none
      else parseNumber (c :: rest)
/-- One or more comma separated array elements followed by the closing
bracket. -/
def parseElems : Nat → List Char → Option (JArr × List Char)
  | 0, _ => none
  | fuel+1, cs =>
    match parseValue fuel cs with
    | none => none
    | some (v, r1) =>
      match skipWs r1 with
      | [] => none
      | c :: r2 =>
        if c = ',' then
          match parseElems fuel r2 with
          | none => none
          | some (es, r3) => some (JArr.cons v es, r3)
        else if c = ']' then some (JArr.cons v JArr.nil, r2)
        else none
/-- One or more comma separated object members followed by the closing
brace. -/
def parseMembers : Nat → List Char → Option (JObj × List Char)
  | 0, _ => none
  | fuel+1, cs =>
    match skipWs cs with
    | [] => none
    | c :: rest =>
      if c = '"' then
        match parseStringBody rest with
        | none => none
        | some (k, r1) =>
          match skipWs r1 with
          | [] => none
          | c2 :: r2 =>
            if c2 = ':' then
              match parseValue fuel r2 with
              | none => none
              | some (v, r3) =>
                match skipWs r3 with
                | [] => none
                | c3 :: r4 =>
                  if c3 = ',' then
                    match parseMembers fuel r4 with
                    | none => none
                    | some (fs, r5) => some (JObj.cons k v fs, r5)
                  else if c3 = '}' then some (JObj.cons k v JObj.nil, r4)
                  else none
            else none
      else none
end

/-- JSON.parse: parse one value and require only whitespace after it. -/
def jsonParse (cs : List Char) : Option JVal :=
  match parseValue (cs.length + 1) cs with
  | some (v, rest) => if (skipWs rest).isEmpty then some v else none
  | none => none

/-! ## Round trip of the decimal printer -/

theorem charOfNat_toNat {m : Nat} (h : m < 55296) : (Char.ofNat m).toNat = m := by
  unfold Char.ofNat Char.toNat
  rw [dif_pos (Or.inl h)]
  rfl

theorem digitChar_toNat {n : Nat} (h : n < 10) : (digitChar n).toNat = 48 + n := by
  unfold digitChar
  exact charOfNat_toNat (by omega)

theorem isDigit_iff (c : Char) :
    c.isDigit = true ↔ 48 ≤ c.toNat ∧ c.toNat ≤ 57 := by
  unfold Char.isDigit
  rw [Bool.and_eq_true, decide_eq_true_eq, decide_eq_true_eq]
  exact ⟨fun h => ⟨h.1, h.2⟩, fun h => ⟨h.1, h.2⟩⟩

theorem digitChar_isDigit {n : Nat} (h : n < 10) : (digitChar n).isDigit = true := by
  rw [isDigit_iff, digitChar_toNat h]
  omega

theorem digitsToNat_append_digit (xs : List Char) (d : Char) :
    digitsToNat (xs ++ [d]) = digitsToNat xs * 10 + (d.toNat - 48) := by
  unfold digitsToNat
  rw [List.foldl_append]
  rfl

theorem natToCharsAux_spec :
    ∀ fuel n, n < fuel →
      (∀ c ∈ natToCharsAux fuel n, c.isDigit = true) ∧
      natToCharsAux fuel n ≠ [] ∧
      digitsToNat (natToCharsAux fuel n) = n ∧
      (0 < n → (natToCharsAux fuel n).headD ' ' ≠ '0') := by
  intro fuel
  induction fuel with
  | zero => intro n h; omega
  | succ fuel ih =>
    intro n h
    by_cases hn : n < 10
    · refine ⟨?_, ?_, ?_, ?_⟩
      · intro c hc
        unfold natToCharsAux at hc
        rw [if_pos hn] at hc
        simp only [List.mem_singleton] at hc
        subst hc
        exact digitChar_isDigit hn
      · unfold natToCharsAux
        rw [if_pos hn]
        simp
      · unfold natToCharsAux
        rw [if_pos hn]
        unfold digitsToNat
        simp only [List.foldl_cons, List.foldl_nil]
        rw [digitChar_toNat hn]
        omega
      · intro hpos
        unfold natToCharsAux
        rw [if_pos hn]
        simp only [List.headD_cons]
        intro hcon
        have := congrArg Char.toNat hcon
        rw [digitChar_toNat hn] at this
        have : (('0' : Char)).toNat = 48 := rfl
        omega
    · have hdiv : n / 10 < fuel := by omega
      obtain ⟨ihall, ihne, ihval, ihhead⟩ := ih (n / 10) hdiv
      have hrec : natToCharsAux (fuel + 1) n =
          natToCharsAux fuel (n / 10) ++ [digitChar (n % 10)] := by
        conv_lhs => rw [natToCharsAux]
        rw [if_neg hn]
      refine ⟨?_, ?_, ?_, ?_⟩
      · intro c hc
        rw [hrec] at hc
        rcases List.mem_append.mp hc with h1 | h1
        · exact ihall c h1
        · simp only [List.mem_singleton] at h1
          subst h1
          exact digitChar_isDigit (by omega)
      · rw [hrec]
        simp
      · rw [hrec, digitsToNat_append_digit, ihval,
          digitChar_toNat (by omega : n % 10 < 10)]
        omega
      · intro _
        rw [hrec]
        cases hcase : natToCharsAux fuel (n / 10) with
        | nil => exact absurd hcase ihne
        | cons x xs =>
          simp only [List.cons_append, List.headD_cons]
          have := ihhead (by omega)
          rw [hcase] at this
          simpa using this

theorem natToChars_spec (n : Nat) :
    (∀ c ∈ natToChars n, c.isDigit = true) ∧
    natToChars n ≠ [] ∧
    digitsToNat (natToChars n) = n ∧
    (0 < n → (natToChars n).headD ' ' ≠ '0') :=
  natToCharsAux_spec (n + 1) n (by omega)

/-- Splitting a list whose front satisfies `p` and whose continuation does
not start with `p`. -/
theorem takeWhile_dropWhile_append (p : Char → Bool) :
    ∀ (xs ys : List Char), (∀ x ∈ xs, p x = true) →
      (∀ y, ys.head? = some y → p y = false) →
      (xs ++ ys).takeWhile p = xs ∧ (xs ++ ys).dropWhile p = ys := by
  intro xs
  induction xs with
  | nil =>
    intro ys _ hy
    cases ys with
    | nil => exact ⟨rfl, rfl⟩
    | cons y ys' =>
      have := hy y rfl
      constructor
      · simp [List.takeWhile_cons, this]
      · simp [List.dropWhile_cons, this]
  | cons x xs ih =>
    intro ys hx hy
    have hpx : p x = true := hx x (List.mem_cons_self _ _)
    have := ih ys (fun a ha => hx a (List.mem_cons_of_mem _ ha)) hy
    constructor
    · simp [List.takeWhile_cons, hpx, this.1]
    · simp [List.dropWhile_cons, hpx, this.2]

/-- Heads that may legally follow a printed number (not a digit, dot or
exponent marker) keep the number parse unambiguous. -/
def numSafe : List Char → Prop
  | [] => True
  | c :: _ => c.isDigit = false ∧ c ≠ '.' ∧ c ≠ 'e' ∧ c ≠ 'E'

theorem parseNumber_natToChars (n : Nat) (rest : List Char)
    (hsafe : numSafe rest) :
    parseNumber (natToChars n ++ rest) =
      some (JVal.num (Int.ofNat n), rest) := by
  obtain ⟨hall, hne, hval, hhead⟩ := natToChars_spec n
  obtain ⟨d, ds, hds⟩ : ∃ d ds, natToChars n = d :: ds := by
    cases hcase : natToChars n with
    | nil => exact absurd hcase hne
    | cons d ds => exact ⟨d, ds, rfl⟩
  have hrestOk : ∀ y, rest.head? = some y → y.isDigit = false := by
    intro y hy
    cases rest with
    | nil => simp at hy
    | cons r rs =>
      simp only [List.head?_cons, Option.some_inj] at hy
      subst hy
      exact hsafe.1
  have hsplit := takeWhile_dropWhile_append Char.isDigit (natToChars n) rest
    hall hrestOk
  have hd : d.isDigit = true := by
    apply hall
    rw [hds]
    exact List.mem_cons_self _ _
  have hdnat := (isDigit_iff d).mp hd
  rw [hds] at hsplit ⊢
  show parseNumber (d :: (ds ++ rest)) = _
  unfold parseNumber
  rw [if_neg (by
    intro hcon
    subst hcon
    have : ('-' : Char).toNat = 45 := rfl
    omega)]
  rw [if_pos hd]
  have htake : (d :: (ds ++ rest)).takeWhile Char.isDigit = d :: ds := by
    have := hsplit.1
    simpa using this
  have hdrop : (d :: (ds ++ rest)).dropWhile Char.isDigit = rest := by
    have := hsplit.2
    simpa using this
  rw [htake, hdrop]
  rw [if_neg (by
    rintro ⟨hlen, hzero⟩
    simp only [List.headD_cons] at hzero
    subst hzero
    have h0 : 0 < n := by
      by_contra hcon
      have hn0 : n = 0 := by omega
      subst hn0
      have : natToChars 0 = ['0'] := rfl
      rw [this] at hds
      injection hds with _ h2
      subst h2
      simp at hlen
    have := hhead h0
    rw [hds] at this
    simp at this)]
  rw [if_neg (by
    rintro (hcon | hcon | hcon) <;>
    · cases rest with
      | nil => exact absurd hcon (by decide)
      | cons r rs =>
        simp only [List.headD_cons] at hcon
        subst hcon
        first
        | exact absurd rfl hsafe.2.1
        | exact absurd rfl hsafe.2.2.1
        | exact absurd rfl hsafe.2.2.2)]
  rw [← hds, hval]

theorem intToChars_head_digit_or_minus (n : Int) :
    (intToChars n).headD ' ' = '-' ∨ ((intToChars n).headD ' ').isDigit = true := by
  unfold intToChars
  by_cases hneg : n < 0
  · rw [if_pos hneg]
    left
    rfl
  · rw [if_neg hneg]
    right
    obtain ⟨hall, hne, _, _⟩ := natToChars_spec n.toNat
    cases hcase : natToChars n.toNat with
    | nil => exact absurd hcase hne
    | cons d ds =>
      simp only [List.headD_cons]
      apply hall
      rw [hcase]
      exact List.mem_cons_self _ _

theorem parseNumber_intToChars (n : Int) (rest : List Char)
    (hsafe : numSafe rest) :
    parseNumber (intToChars n ++ rest) = some (JVal.num n, rest) := by
  unfold intToChars
  by_cases hneg : n < 0
  · rw [if_pos hneg]
    obtain ⟨hall, hne, hval, hhead⟩ := natToChars_spec n.natAbs
    obtain ⟨d, ds, hds⟩ : ∃ d ds, natToChars n.natAbs = d :: ds := by
      cases hcase : natToChars n.natAbs with
      | nil => exact absurd hcase hne
      | cons d ds => exact ⟨d, ds, rfl⟩
    show parseNumber ('-' :: (natToChars n.natAbs ++ rest)) = _
    unfold parseNumber
    rw [if_pos rfl]
    rw [hds]
    simp only [List.cons_append]
    rw [if_pos (by
      apply hall
      rw [hds]
      exact List.mem_cons_self _ _)]
    have := parseNumber_natToChars n.natAbs rest hsafe
    rw [hds] at this
    simp only [List.cons_append] at this
    rw [this]
    have heq : -(Int.ofNat n.natAbs) = n := by
      simp only [Int.ofNat_eq_coe]
      omega
    dsimp only
    rw [heq]
  · rw [if_neg hneg]
    have := parseNumber_natToChars n.toNat rest hsafe
    rw [this]
    have heq : Int.ofNat n.toNat = n := by
      simp only [Int.ofNat_eq_coe]
      omega
    rw [heq]

/-! ## Round trip of the string escaper -/

theorem hexVal_hexDigitChar {m : Nat} (h : m < 16) :
    hexVal (hexDigitChar m) = some m := by
  interval_cases m <;> decide

theorem parseStringBody_escape : ∀ (s rest : List Char),
    parseStringBody (escapeString s ++ '"' :: rest) = some (s, rest) := by
  intro s
  induction s with
  | nil =>
    intro rest
    show parseStringBody ('"' :: rest) = _
    rw [parseStringBody, if_pos rfl]
  | cons c cs ih =>
    intro rest
    have hesc : escapeString (c :: cs) = escapeChar c ++ escapeString cs := rfl
    rw [hesc, List.append_assoc]
    unfold escapeChar
    by_cases h1 : c = '"'
    · subst h1
      rw [if_pos rfl]
      show parseStringBody ('\\' :: '"' :: (escapeString cs ++ '"' :: rest)) = _
      rw [parseStringBody, if_neg (by decide), if_pos rfl, parseEscape,
        if_pos rfl, ih rest]
      try rfl
    · rw [if_neg h1]
      by_cases h2 : c = '\\'
      · subst h2
        rw [if_pos rfl]
        show parseStringBody
          ('\\' :: '\\' :: (escapeString cs ++ '"' :: rest)) = _
        rw [parseStringBody, if_neg (by decide), if_pos rfl, parseEscape,
          if_neg (by decide), if_pos rfl, ih rest]
        try rfl
      · rw [if_neg h2]
        by_cases h3 : c.toNat < 0x20
        · rw [if_pos h3]
          by_cases h8 : c.toNat = 8
          · rw [if_pos h8]
            have hc : c = Char.ofNat 8 := by rw [← Char.ofNat_toNat c, h8]
            show parseStringBody
              ('\\' :: 'b' :: (escapeString cs ++ '"' :: rest)) = _
            rw [parseStringBody, if_neg (by decide), if_pos rfl, parseEscape,
              if_neg (by decide), if_neg (by decide), if_neg (by decide),
              if_pos rfl, ih rest, hc]
            try rfl
          · rw [if_neg h8]
            by_cases h9 : c.toNat = 9
            · rw [if_pos h9]
              have hc : c = '\t' := by rw [← Char.ofNat_toNat c, h9]
              show parseStringBody
                ('\\' :: 't' :: (escapeString cs ++ '"' :: rest)) = _
              rw [parseStringBody, if_neg (by decide), if_pos rfl, parseEscape,
                if_neg (by decide), if_neg (by decide), if_neg (by decide),
                if_neg (by decide), if_neg (by decide), if_neg (by decide),
                if_neg (by decide), if_pos rfl, ih rest, hc]
              try rfl
            · rw [if_neg h9]
              by_cases h10 : c.toNat = 10
              · rw [if_pos h10]
                have hc : c = '\n' := by rw [← Char.ofNat_toNat c, h10]
                show parseStringBody
                  ('\\' :: 'n' :: (escapeString cs ++ '"' :: rest)) = _
                rw [parseStringBody, if_neg (by decide), if_pos rfl, parseEscape,
                  if_neg (by decide), if_neg (by decide), if_neg (by decide),
                  if_neg (by decide), if_neg (by decide), if_pos rfl, ih rest, hc]
                try rfl
              · rw [if_neg h10]
                by_cases h12 : c.toNat = 12
                · rw [if_pos h12]
                  have hc : c = Char.ofNat 12 := by
                    rw [← Char.ofNat_toNat c, h12]
                  show parseStringBody
                    ('\\' :: 'f' :: (escapeString cs ++ '"' :: rest)) = _
                  rw [parseStringBody, if_neg (by decide), if_pos rfl,
                    parseEscape, if_neg (by decide), if_neg (by decide),
                    if_neg (by decide), if_neg (by decide), if_pos rfl,
                    ih rest, hc]
                  try rfl
                · rw [if_neg h12]
                  by_cases h13 : c.toNat = 13
                  · rw [if_pos h13]
                    have hc : c = Char.ofNat 13 := by
                      rw [← Char.ofNat_toNat c, h13]
                    show parseStringBody
                      ('\\' :: 'r' :: (escapeString cs ++ '"' :: rest)) = _
                    rw [parseStringBody, if_neg (by decide), if_pos rfl,
                      parseEscape, if_neg (by decide), if_neg (by decide),
                      if_neg (by decide), if_neg (by decide), if_neg (by decide),
                      if_neg (by decide), if_pos rfl, ih rest, hc]
                    try rfl
                  · rw [if_neg h13]
                    show parseStringBody
                      ('\\' :: 'u' :: '0' :: '0' ::
                        hexDigitChar (c.toNat / 16) ::
                        hexDigitChar (c.toNat % 16) ::
                        (escapeString cs ++ '"' :: rest)) = _
                    rw [parseStringBody, if_neg (by decide), if_pos rfl,
                      parseEscape, if_neg (by decide), if_neg (by decide),
                      if_neg (by decide), if_neg (by decide), if_neg (by decide),
                      if_neg (by decide), if_neg (by decide), if_neg (by decide),
                      if_pos rfl, parseUnicodeEscape]
                    rw [show hexVal '0' = some 0 from rfl,
                      hexVal_hexDigitChar (by omega : c.toNat / 16 < 16),
                      hexVal_hexDigitChar (by omega : c.toNat % 16 < 16)]
                    dsimp only
                    have hcp : 0 * 4096 + 0 * 256 + c.toNat / 16 * 16 +
                        c.toNat % 16 = c.toNat := by omega
                    rw [hcp, if_pos (Or.inl (by omega : c.toNat < 0xD800)),
                      ih rest, mkCharLossy_toNat]
                    try rfl
        · rw [if_neg h3]
          show parseStringBody (c :: (escapeString cs ++ '"' :: rest)) = _
          rw [parseStringBody, if_neg h1, if_neg h2, if_neg h3, ih rest]
          try rfl


/-! ## Round trip of the value parser -/

mutual
/-- Fuel sufficient for the recursive descent to reparse a printed value. -/
def pfuel : JVal → Nat
  | JVal.arr es => 1 + pfuelArr es
  | JVal.obj fs => 1 + pfuelObj fs
  | _ => 1
def pfuelArr : JArr → Nat
  | JArr.nil => 1
  | JArr.cons e tl => 1 + max (pfuel e) (pfuelArr tl)
def pfuelObj : JObj → Nat
  | JObj.nil => 1
  | JObj.cons _ v tl => 1 + max (pfuel v) (pfuelObj tl)
end

theorem pfuel_arr_eq (es : JArr) : pfuel (JVal.arr es) = 1 + pfuelArr es := rfl

theorem pfuel_obj_eq (fs : JObj) : pfuel (JVal.obj fs) = 1 + pfuelObj fs := rfl

theorem pfuelArr_cons_eq (e : JVal) (tl : JArr) :
    pfuelArr (JArr.cons e tl) = 1 + max (pfuel e) (pfuelArr tl) := rfl

theorem pfuelObj_cons_eq (k : List Char) (v : JVal) (tl : JObj) :
    pfuelObj (JObj.cons k v tl) = 1 + max (pfuel v) (pfuelObj tl) := rfl

theorem pfuel_pos (v : JVal) : 0 < pfuel v := by
  cases v with
  | arr es => rw [pfuel_arr_eq]; omega
  | obj fs => rw [pfuel_obj_eq]; omega
  | null => exact Nat.one_pos
  | bool b => exact Nat.one_pos
  | num n => exact Nat.one_pos
  | str s => exact Nat.one_pos

theorem skipWs_cons (c : Char) {l : List Char} (h : isJsonWs c = false) :
    skipWs (c :: l) = c :: l := by
  unfold skipWs
  rw [List.dropWhile_cons, if_neg (by simp [h])]

theorem numSafe_cons (c : Char) {l : List Char}
    (h : c.isDigit = false ∧ c ≠ '.' ∧ c ≠ 'e' ∧ c ≠ 'E') :
    numSafe (c :: l) := h

theorem char_ne_of_toNat_ne {c d : Char} (h : c.toNat ≠ d.toNat) : c ≠ d :=
  fun hcon => h (congrArg Char.toNat hcon)

/-- A printed number starts with a minus sign or a digit; such a character is
none of the keyword, string, array or object dispatch characters and is not
JSON whitespace. -/
theorem numHead_facts {d : Char} (hd : d = '-' ∨ d.isDigit = true) :
    isJsonWs d = false ∧ d ≠ 'n' ∧ d ≠ 't' ∧ d ≠ 'f' ∧ d ≠ '"' ∧
      d ≠ '[' ∧ d ≠ '{' ∧ d ≠ ']' ∧ d ≠ '}' := by
  rcases hd with hd | hd
  · subst hd
    refine ⟨by decide, by decide, by decide, by decide, by decide, by decide,
      by decide, by decide, by decide⟩
  · have hb := (isDigit_iff d).mp hd
    have hne : ∀ x : Char, (48 ≤ x.toNat ∧ x.toNat ≤ 57 → False) → d ≠ x := by
      intro x hx hcon
      subst hcon
      exact hx hb
    refine ⟨?_, hne _ (by decide), hne _ (by decide), hne _ (by decide),
      hne _ (by decide), hne _ (by decide), hne _ (by decide),
      hne _ (by decide), hne _ (by decide)⟩
    unfold isJsonWs
    rw [decide_eq_false (hne _ (by decide)), decide_eq_false (hne _ (by decide)),
      decide_eq_false (hne _ (by decide)), decide_eq_false (hne _ (by decide))]
    rfl

theorem intToChars_shape (n : Int) : ∃ d ds, intToChars n = d :: ds ∧
    (d = '-' ∨ d.isDigit = true) := by
  unfold intToChars
  by_cases hneg : n < 0
  · rw [if_pos hneg]
    exact ⟨'-', natToChars n.natAbs, rfl, Or.inl rfl⟩
  · rw [if_neg hneg]
    obtain ⟨hall, hne, _, _⟩ := natToChars_spec n.toNat
    cases hcase : natToChars n.toNat with
    | nil => exact absurd hcase hne
    | cons d ds =>
      refine ⟨d, ds, rfl, Or.inr (hall d ?_)⟩
      rw [hcase]
      exact List.mem_cons_self _ _

/-- The first character of a printed value is not JSON whitespace, is not a
closing bracket and lies in the printable ASCII range. -/
theorem stringifyVal_head (v : JVal) : ∃ c l, stringifyVal v = c :: l ∧
    isJsonWs c = false ∧ c ≠ ']' ∧ c ≠ '}' ∧ 33 ≤ c.toNat ∧ c.toNat ≤ 126 := by
  cases v with
  | null =>
    exact ⟨'n', ['u', 'l', 'l'], rfl, by decide, by decide, by decide,
      by decide, by decide⟩
  | bool b =>
    cases b with
    | true =>
      exact ⟨'t', ['r', 'u', 'e'], rfl, by decide, by decide, by decide,
        by decide, by decide⟩
    | false =>
      exact ⟨'f', ['a', 'l', 's', 'e'], rfl, by decide, by decide, by decide,
        by decide, by decide⟩
  | num n =>
    obtain ⟨d, ds, hds, hd⟩ := intToChars_shape n
    have hfacts := numHead_facts hd
    refine ⟨d, ds, hds, hfacts.1, hfacts.2.2.2.2.2.2.2.1,
      hfacts.2.2.2.2.2.2.2.2, ?_, ?_⟩
    · rcases hd with hd | hd
      · subst hd; decide
      · have := (isDigit_iff d).mp hd
        omega
    · rcases hd with hd | hd
      · subst hd; decide
      · have := (isDigit_iff d).mp hd
        omega
  | str s =>
    exact ⟨'"', escapeString s ++ ['"'], rfl, by decide, by decide, by decide,
      by decide, by decide⟩
  | arr es =>
    cases es with
    | nil =>
      exact ⟨'[', [']'], rfl, by decide, by decide, by decide, by decide,
        by decide⟩
    | cons e tl =>
      exact ⟨'[', (stringifyVal e ++ stringifyElems tl) ++ [']'], rfl,
        by decide, by decide, by decide, by decide, by decide⟩
  | obj fs =>
    cases fs with
    | nil =>
      exact ⟨'{', ['}'], rfl, by decide, by decide, by decide, by decide,
        by decide⟩
    | cons k v tl =>
      exact ⟨'{', ('"' :: escapeString k ++ '"' :: ':' :: stringifyVal v ++
        stringifyMembers tl) ++ ['}'], rfl, by decide, by decide, by decide,
        by decide, by decide⟩


/-- Reparsing a printed value: all three parsers of the mutual descent recover
the value they print, given enough fuel and a continuation that cannot extend
a number literal. -/
theorem parse_stringify_all : ∀ fuel : Nat,
    (∀ (v : JVal) (rest : List Char), pfuel v ≤ fuel → numSafe rest →
      parseValue fuel (stringifyVal v ++ rest) = some (v, rest)) ∧
    (∀ (e : JVal) (tl : JArr) (rest : List Char),
      pfuelArr (JArr.cons e tl) ≤ fuel → numSafe rest →
      parseElems fuel (stringifyVal e ++ (stringifyElems tl ++ (']' :: rest))) =
        some (JArr.cons e tl, rest)) ∧
    (∀ (k : List Char) (v : JVal) (tl : JObj) (rest : List Char),
      pfuelObj (JObj.cons k v tl) ≤ fuel → numSafe rest →
      parseMembers fuel ('"' :: (escapeString k ++ ('"' :: (':' ::
        (stringifyVal v ++ (stringifyMembers tl ++ ('}' :: rest))))))) =
        some (JObj.cons k v tl, rest)) := by
  intro fuel
  induction fuel with
  | zero =>
    refine ⟨fun v rest h _ => absurd h (by have := pfuel_pos v; omega),
      fun e tl rest h _ => absurd h (by rw [pfuelArr_cons_eq]; omega),
      fun k v tl rest h _ => absurd h (by rw [pfuelObj_cons_eq]; omega)⟩
  | succ f ih =>
    refine ⟨?_, ?_, ?_⟩
    · intro v rest hfuel hsafe
      cases v with
      | null =>
        show parseValue (f+1) ('n' :: 'u' :: 'l' :: 'l' :: rest) = _
        rw [parseValue, skipWs_cons 'n' (by decide)]
        dsimp only
        rw [if_pos rfl, if_pos ⟨rfl, rfl, rfl⟩]
      | bool b =>
        cases b with
        | true =>
          show parseValue (f+1) ('t' :: 'r' :: 'u' :: 'e' :: rest) = _
          rw [parseValue, skipWs_cons 't' (by decide)]
          dsimp only
          rw [if_neg (by decide), if_pos rfl, if_pos ⟨rfl, rfl, rfl⟩]
        | false =>
          show parseValue (f+1) ('f' :: 'a' :: 'l' :: 's' :: 'e' :: rest) = _
          rw [parseValue, skipWs_cons 'f' (by decide)]
          dsimp only
          rw [if_neg (by decide), if_neg (by decide), if_pos rfl,
            if_pos ⟨rfl, rfl, rfl, rfl⟩]
      | num n =>
        obtain ⟨d, ds, hds, hd⟩ := intToChars_shape n
        have hfacts := numHead_facts hd
        show parseValue (f+1) (intToChars n ++ rest) = _
        rw [hds]
        simp only [List.cons_append]
        rw [parseValue, skipWs_cons d hfacts.1]
        dsimp only
        rw [if_neg hfacts.2.1, if_neg hfacts.2.2.1, if_neg hfacts.2.2.2.1,
          if_neg hfacts.2.2.2.2.1, if_neg hfacts.2.2.2.2.2.1,
          if_neg hfacts.2.2.2.2.2.2.1]
        have hnum := parseNumber_intToChars n rest hsafe
        rw [hds] at hnum
        simp only [List.cons_append] at hnum
        exact hnum
      | str s =>
        have hshape : stringifyVal (JVal.str s) ++ rest =
            '"' :: (escapeString s ++ ('"' :: rest)) := by
          simp [stringifyVal]
        rw [hshape, parseValue, skipWs_cons '"' (by decide)]
        dsimp only
        rw [if_neg (by decide), if_neg (by decide), if_neg (by decide),
          if_pos rfl, parseStringBody_escape s rest]
      | arr es =>
        cases es with
        | nil =>
          show parseValue (f+1) ('[' :: ']' :: rest) = _
          rw [parseValue, skipWs_cons '[' (by decide)]
          dsimp only
          rw [if_neg (by decide), if_neg (by decide), if_neg (by decide),
            if_neg (by decide), if_pos rfl, skipWs_cons ']' (by decide)]
          dsimp only
          rw [if_pos rfl]
        | cons e tl =>
          have hshape : stringifyVal (JVal.arr (JArr.cons e tl)) ++ rest =
              '[' :: (stringifyVal e ++ (stringifyElems tl ++ (']' :: rest))) := by
            simp [stringifyVal]
          rw [hshape, parseValue, skipWs_cons '[' (by decide)]
          dsimp only
          rw [if_neg (by decide), if_neg (by decide), if_neg (by decide),
            if_neg (by decide), if_pos rfl]
          obtain ⟨c0, l0, hl0, hc0ws, hc0br, _, _, _⟩ := stringifyVal_head e
          rw [hl0]
          simp only [List.cons_append]
          rw [skipWs_cons c0 hc0ws]
          dsimp only
          rw [if_neg hc0br]
          rw [show c0 :: (l0 ++ (stringifyElems tl ++ (']' :: rest))) =
            (c0 :: l0) ++ (stringifyElems tl ++ (']' :: rest)) from rfl, ← hl0]
          have hfa : pfuelArr (JArr.cons e tl) ≤ f := by
            rw [pfuel_arr_eq] at hfuel
            omega
          rw [ih.2.1 e tl rest hfa hsafe]
      | obj fs =>
        cases fs with
        | nil =>
          show parseValue (f+1) ('{' :: '}' :: rest) = _
          rw [parseValue, skipWs_cons '{' (by decide)]
          dsimp only
          rw [if_neg (by decide), if_neg (by decide), if_neg (by decide),
            if_neg (by decide), if_neg (by decide), if_pos rfl,
            skipWs_cons '}' (by decide)]
          dsimp only
          rw [if_pos rfl]
        | cons k v tl =>
          have hshape : stringifyVal (JVal.obj (JObj.cons k v tl)) ++ rest =
              '{' :: ('"' :: (escapeString k ++ ('"' :: (':' ::
                (stringifyVal v ++ (stringifyMembers tl ++ ('}' :: rest))))))) := by
            simp [stringifyVal]
          rw [hshape, parseValue, skipWs_cons '{' (by decide)]
          dsimp only
          rw [if_neg (by decide), if_neg (by decide), if_neg (by decide),
            if_neg (by decide), if_neg (by decide), if_pos rfl,
            skipWs_cons '"' (by decide)]
          dsimp only
          rw [if_neg (by decide)]
          have hfo : pfuelObj (JObj.cons k v tl) ≤ f := by
            rw [pfuel_obj_eq] at hfuel
            omega
          rw [ih.2.2 k v tl rest hfo hsafe]
    · intro e tl rest hfuel hsafe
      have hsafe2 : numSafe (stringifyElems tl ++ (']' :: rest)) := by
        cases tl with
        | nil => exact numSafe_cons ']' ⟨by decide, by decide, by decide, by decide⟩
        | cons e2 tl2 =>
          have hm : stringifyElems (JArr.cons e2 tl2) ++ (']' :: rest) =
              ',' :: (stringifyVal e2 ++ (stringifyElems tl2 ++ (']' :: rest))) := by
            simp [stringifyElems]
          rw [hm]
          exact numSafe_cons ',' ⟨by decide, by decide, by decide, by decide⟩
      rw [pfuelArr_cons_eq] at hfuel
      rw [parseElems, ih.1 e (stringifyElems tl ++ (']' :: rest))
        (by omega) hsafe2]
      dsimp only
      cases tl with
      | nil =>
        rw [show stringifyElems JArr.nil ++ (']' :: rest) = ']' :: rest from rfl,
          skipWs_cons ']' (by decide)]
        dsimp only
        rw [if_neg (by decide), if_pos rfl]
      | cons e2 tl2 =>
        have hm : stringifyElems (JArr.cons e2 tl2) ++ (']' :: rest) =
            ',' :: (stringifyVal e2 ++ (stringifyElems tl2 ++ (']' :: rest))) := by
          simp [stringifyElems]
        rw [hm, skipWs_cons ',' (by decide)]
        dsimp only
        rw [if_pos rfl]
        rw [ih.2.1 e2 tl2 rest (by rw [pfuelArr_cons_eq] at hfuel ⊢; omega) hsafe]
    · intro k v tl rest hfuel hsafe
      have hsafe3 : numSafe (stringifyMembers tl ++ ('}' :: rest)) := by
        cases tl with
        | nil => exact numSafe_cons '}' ⟨by decide, by decide, by decide, by decide⟩
        | cons k2 v2 tl2 =>
          have hm : stringifyMembers (JObj.cons k2 v2 tl2) ++ ('}' :: rest) =
              ',' :: ('"' :: (escapeString k2 ++ ('"' :: (':' ::
                (stringifyVal v2 ++ (stringifyMembers tl2 ++ ('}' :: rest))))))) := by
            simp [stringifyMembers]
          rw [hm]
          exact numSafe_cons ',' ⟨by decide, by decide, by decide, by decide⟩
      rw [pfuelObj_cons_eq] at hfuel
      rw [parseMembers, skipWs_cons '"' (by decide)]
      dsimp only
      rw [if_pos rfl,
        parseStringBody_escape k (':' :: (stringifyVal v ++
          (stringifyMembers tl ++ ('}' :: rest))))]
      dsimp only
      rw [skipWs_cons ':' (by decide)]
      dsimp only
      rw [if_pos rfl, ih.1 v (stringifyMembers tl ++ ('}' :: rest))
        (by omega) hsafe3]
      dsimp only
      cases tl with
      | nil =>
        rw [show stringifyMembers JObj.nil ++ ('}' :: rest) = '}' :: rest from rfl,
          skipWs_cons '}' (by decide)]
        dsimp only
        rw [if_neg (by decide), if_pos rfl]
      | cons k2 v2 tl2 =>
        have hm : stringifyMembers (JObj.cons k2 v2 tl2) ++ ('}' :: rest) =
            ',' :: ('"' :: (escapeString k2 ++ ('"' :: (':' ::
              (stringifyVal v2 ++ (stringifyMembers tl2 ++ ('}' :: rest))))))) := by
          simp [stringifyMembers]
        rw [hm, skipWs_cons ',' (by decide)]
        dsimp only
        rw [if_pos rfl]
        rw [ih.2.2 k2 v2 tl2 rest
          (by rw [pfuelObj_cons_eq] at hfuel ⊢; omega) hsafe]


mutual
/-- The printed form of a value is nonempty and at least as long as the fuel
the reparse needs. -/
theorem stringify_len_bound : ∀ v : JVal,
    1 ≤ (stringifyVal v).length ∧ pfuel v ≤ (stringifyVal v).length
  | JVal.null => by exact ⟨by decide, by decide⟩
  | JVal.bool true => by exact ⟨by decide, by decide⟩
  | JVal.bool false => by exact ⟨by decide, by decide⟩
  | JVal.num n => by
    obtain ⟨d, ds, hds, _⟩ := intToChars_shape n
    have hl : stringifyVal (JVal.num n) = d :: ds := hds
    rw [hl]
    exact ⟨by simp, by simp [show pfuel (JVal.num n) = 1 from rfl]⟩
  | JVal.str s => by
    have hl : (stringifyVal (JVal.str s)).length =
        1 + ((escapeString s).length + 1) := by
      show (('"' :: escapeString s) ++ ['"']).length = _
      simp
      omega
    constructor <;> [skip; rw [show pfuel (JVal.str s) = 1 from rfl]] <;> omega
  | JVal.arr JArr.nil => by
    exact ⟨by decide, by rw [pfuel_arr_eq]; decide⟩
  | JVal.arr (JArr.cons e tl) => by
    have ha := stringify_len_bound e
    have hb := stringifyElems_len_bound tl
    have hl : (stringifyVal (JVal.arr (JArr.cons e tl))).length =
        1 + (((stringifyVal e).length + (stringifyElems tl).length) + 1) := by
      show (('[' :: (stringifyVal e ++ stringifyElems tl)) ++ [']']).length = _
      simp
      omega
    rw [pfuel_arr_eq, pfuelArr_cons_eq, hl]
    omega
  | JVal.obj JObj.nil => by
    exact ⟨by decide, by rw [pfuel_obj_eq]; decide⟩
  | JVal.obj (JObj.cons k v tl) => by
    have ha := stringify_len_bound v
    have hb := stringifyMembers_len_bound tl
    have hl : (stringifyVal (JVal.obj (JObj.cons k v tl))).length =
        1 + (((('"' :: escapeString k) ++
          ('"' :: ':' :: stringifyVal v)).length +
          (stringifyMembers tl).length) + 1) := by
      show (('{' :: (('"' :: escapeString k) ++ ('"' :: ':' :: stringifyVal v)
        ++ stringifyMembers tl)) ++ ['}']).length = _
      simp
      omega
    have hl2 : (('"' :: escapeString k) ++
        ('"' :: ':' :: stringifyVal v)).length =
        (escapeString k).length + (stringifyVal v).length + 3 := by
      simp
      omega
    rw [pfuel_obj_eq, pfuelObj_cons_eq, hl, hl2]
    omega
/-- Length bound for the printed tail of an array. -/
theorem stringifyElems_len_bound : ∀ tl : JArr,
    pfuelArr tl ≤ (stringifyElems tl).length + 1
  | JArr.nil => by exact Nat.le_refl 1
  | JArr.cons e tl => by
    have ha := stringify_len_bound e
    have hb := stringifyElems_len_bound tl
    have hl : (stringifyElems (JArr.cons e tl)).length =
        1 + ((stringifyVal e).length + (stringifyElems tl).length) := by
      show ((',' :: stringifyVal e) ++ stringifyElems tl).length = _
      simp
      omega
    rw [pfuelArr_cons_eq, hl]
    omega
/-- Length bound for the printed tail of an object. -/
theorem stringifyMembers_len_bound : ∀ tl : JObj,
    pfuelObj tl ≤ (stringifyMembers tl).length + 1
  | JObj.nil => by exact Nat.le_refl 1
  | JObj.cons k v tl => by
    have ha := stringify_len_bound v
    have hb := stringifyMembers_len_bound tl
    have hl : (stringifyMembers (JObj.cons k v tl)).length =
        (escapeString k).length + (stringifyVal v).length +
          (stringifyMembers tl).length + 4 := by
      show ((',' :: '"' :: escapeString k) ++ ('"' :: ':' :: stringifyVal v)
        ++ stringifyMembers tl).length = _
      simp
      omega
    rw [pfuelObj_cons_eq, hl]
    omega
end

/-- JSON.parse inverts JSON.stringify on the modelled value type. -/
theorem jsonParse_stringify (v : JVal) : jsonParse (stringifyVal v) = some v := by
  unfold jsonParse
  have h := (parse_stringify_all ((stringifyVal v).length + 1)).1 v []
    (by have := (stringify_len_bound v).2; omega) trivial
  rw [List.append_nil] at h
  rw [h]
  rfl


/-! ## Serialization pipeline (src/unnamed/part_007, SerializationManager)

`serializeValueForStore` and `deserializeData`, together with the padding
helpers of src/src/IndexedDBWrapper.ts (utils).  The JSON fragment is the
`JVal` type above; typed arrays and array buffers carry their raw bytes. -/

/-- The WHATWG whitespace set recognised by `String.prototype.trim`, as code
point test. -/
def jsWsCode (n : Nat) : Bool :=
  n = 9 || n = 10 || n = 11 || n = 12 || n = 13 || n = 32 || n = 160 ||
  n = 0x1680 || (0x2000 ≤ n && n ≤ 0x200A) || n = 0x2028 || n = 0x2029 ||
  n = 0x202F || n = 0x205F || n = 0x3000 || n = 0xFEFF

def isJsWs (c : Char) : Bool := jsWsCode c.toNat

/-- `String.prototype.trim`: strip the whitespace characters from both
ends. -/
def jsTrim (cs : List Char) : List Char :=
  ((cs.dropWhile isJsWs).reverse.dropWhile isJsWs).reverse

/-- padJsonTo4Bytes of utils: pad the string with spaces until its UTF-8
byte length is a multiple of four. -/
def padJsonTo4Bytes (s : List Char) : List Char :=
  if (utf8Encode s).length % 4 = 0 then s
  else s ++ List.replicate (4 - (utf8Encode s).length % 4) ' '

/-- padTo4Bytes of utils: pad the byte buffer with zero bytes to a multiple
of four. -/
def padTo4Bytes (bytes : List Nat) : List Nat :=
  if bytes.length % 4 = 0 then bytes
  else bytes ++ List.replicate (4 - bytes.length % 4) 0

/-- The values a store can hold: a JSON value, a typed array (its backing
bytes), or a raw ArrayBuffer. -/
inductive Value where
  | json (v : JVal)
  | typed (t : TypedArrayType) (bytes : List Nat)
  | bytes (data : List Nat)

/-- getBytesPerElement of the SerializationManager. -/
def bytesPerElement : TypedArrayType → Nat
  | TypedArrayType.Float32Array => 4
  | TypedArrayType.Int32Array => 4
  | TypedArrayType.Uint32Array => 4
  | TypedArrayType.Float64Array => 8
  | TypedArrayType.Uint8Array => 1

/-- serializeValueForStore: JSON values are stringified, space padded and
UTF-8 encoded; typed arrays must match the declared element type; array
buffers pass through.  Every branch ends in the 4-byte alignment padding. -/
def serializeValueForStore (storeMeta : StoreMetadata) (value : Value) :
    Except String (List Nat) :=
  match storeMeta.dataType, value with
  | DataType.JSON, Value.json v =>
    Except.ok (padTo4Bytes (utf8Encode (padJsonTo4Bytes (stringifyVal v))))
  | DataType.TypedArray, Value.typed t bs =>
    match storeMeta.typedArrayType with
    | none => Except.error "typedArrayType is missing"
    | some t2 =>
      if t = t2 then Except.ok (padTo4Bytes bs)
      else Except.error "value must be an instance of the declared type"
  | DataType.ArrayBuffer, Value.bytes bs => Except.ok (padTo4Bytes bs)
  | _, _ => Except.error "value does not match the store dataType"

/-- deserializeData: JSON stores decode the bytes as UTF-8, trim and parse;
typed array stores view the bytes at their element width; ArrayBuffer stores
return the bytes as they are. -/
def deserializeData (storeMeta : StoreMetadata) (copiedData : List Nat) :
    Except String Value :=
  match storeMeta.dataType with
  | DataType.JSON =>
    match jsonParse (jsTrim (utf8Decode copiedData)) with
    | some v => Except.ok (Value.json v)
    | none => Except.error "JSON.parse failed"
  | DataType.TypedArray =>
    match storeMeta.typedArrayType with
    | none => Except.error "typedArrayType is missing"
    | some t =>
      Except.ok (Value.typed t (copiedData.take
        (copiedData.length / bytesPerElement t * bytesPerElement t)))
  | DataType.ArrayBuffer => Except.ok (Value.bytes copiedData)

theorem jsWsCode_false {n : Nat} (h1 : 33 ≤ n) (h2 : n ≤ 159) :
    jsWsCode n = false := by
  simp only [jsWsCode, Bool.or_eq_false_iff, Bool.and_eq_false_iff,
    decide_eq_false_iff_not]
  omega

theorem isJsWs_false {c : Char} (h1 : 33 ≤ c.toNat) (h2 : c.toNat ≤ 159) :
    isJsWs c = false := jsWsCode_false h1 h2

theorem utf8Encode_append (a b : List Char) :
    utf8Encode (a ++ b) = utf8Encode a ++ utf8Encode b := by
  unfold utf8Encode
  rw [List.flatMap_append]

theorem utf8Encode_replicate_space (n : Nat) :
    utf8Encode (List.replicate n ' ') = List.replicate n 32 := by
  induction n with
  | zero => rfl
  | succ n ih =>
    rw [List.replicate_succ, List.replicate_succ]
    show utf8EncodeChar ' ' ++ utf8Encode (List.replicate n ' ') = _
    rw [ih]
    rfl

theorem utf8Encode_padJson_len (s : List Char) :
    (utf8Encode (padJsonTo4Bytes s)).length % 4 = 0 := by
  unfold padJsonTo4Bytes
  by_cases h : (utf8Encode s).length % 4 = 0
  · rw [if_pos h]
    exact h
  · rw [if_neg h, utf8Encode_append, List.length_append,
      utf8Encode_replicate_space, List.length_replicate]
    omega

/-- The last character printed for a value (a digit, quote, bracket, brace or
keyword letter) lies in the printable ASCII range. -/
theorem natToChars_last (m : Nat) : ∃ d, (natToChars m).getLast? = some d ∧
    48 ≤ d.toNat ∧ d.toNat ≤ 57 := by
  obtain ⟨hall, hne, _, _⟩ := natToChars_spec m
  cases hrev : (natToChars m).reverse with
  | nil => exact absurd (by simpa using congrArg List.reverse hrev) hne
  | cons d ds =>
    have hlast : (natToChars m).getLast? = some d := by
      rw [← List.head?_reverse, hrev]
      rfl
    have hmem : d ∈ natToChars m := by
      rw [← List.mem_reverse, hrev]
      exact List.mem_cons_self _ _
    have hb := (isDigit_iff d).mp (hall d hmem)
    exact ⟨d, hlast, hb.1, hb.2⟩

theorem stringifyVal_last (v : JVal) : ∃ d, (stringifyVal v).getLast? = some d ∧
    33 ≤ d.toNat ∧ d.toNat ≤ 125 := by
  cases v with
  | null => exact ⟨'l', by decide, by decide, by decide⟩
  | bool b =>
    cases b with
    | true => exact ⟨'e', by decide, by decide, by decide⟩
    | false => exact ⟨'e', by decide, by decide, by decide⟩
  | num n =>
    show ∃ d, (intToChars n).getLast? = some d ∧ _
    unfold intToChars
    by_cases hneg : n < 0
    · rw [if_pos hneg]
      obtain ⟨d, hd, h1, h2⟩ := natToChars_last n.natAbs
      obtain ⟨hall, hne, _, _⟩ := natToChars_spec n.natAbs
      cases hcase : natToChars n.natAbs with
      | nil => exact absurd hcase hne
      | cons d0 ds =>
        refine ⟨d, ?_, by omega, by omega⟩
        rw [List.getLast?_cons_cons, ← hcase, hd]
    · rw [if_neg hneg]
      obtain ⟨d, hd, h1, h2⟩ := natToChars_last n.toNat
      exact ⟨d, hd, by omega, by omega⟩
  | str s =>
    refine ⟨'"', ?_, by decide, by decide⟩
    show (('"' :: escapeString s) ++ ['"']).getLast? = some '"'
    exact List.getLast?_concat _
  | arr es =>
    cases es with
    | nil => exact ⟨']', by decide, by decide, by decide⟩
    | cons e tl =>
      refine ⟨']', ?_, by decide, by decide⟩
      show (('[' :: (stringifyVal e ++ stringifyElems tl)) ++ [']']).getLast? =
        some ']'
      exact List.getLast?_concat _
  | obj fs =>
    cases fs with
    | nil => exact ⟨'}', by decide, by decide, by decide⟩
    | cons k v tl =>
      refine ⟨'}', ?_, by decide, by decide⟩
      show (('{' :: (('"' :: escapeString k) ++ ('"' :: ':' :: stringifyVal v)
        ++ stringifyMembers tl)) ++ ['}']).getLast? = some '}'
      exact List.getLast?_concat _

theorem dropWhile_replicate_space (n : Nat) (X : List Char) :
    (List.replicate n ' ' ++ X).dropWhile isJsWs = X.dropWhile isJsWs := by
  induction n with
  | zero => rfl
  | succ n ih =>
    rw [List.replicate_succ, List.cons_append, List.dropWhile_cons,
      if_pos (by decide), ih]

/-- Trimming removes exactly the space padding around a printed value. -/
theorem jsTrim_stringify_pad (v : JVal) (n : Nat) :
    jsTrim (stringifyVal v ++ List.replicate n ' ') = stringifyVal v := by
  obtain ⟨c, l, hl, _, _, _, hc1, hc2⟩ := stringifyVal_head v
  obtain ⟨d, hd, hd1, hd2⟩ := stringifyVal_last v
  have hcws : isJsWs c = false := isJsWs_false hc1 (by omega)
  have hdws : isJsWs d = false := isJsWs_false hd1 (by omega)
  unfold jsTrim
  have h1 : (stringifyVal v ++ List.replicate n ' ').dropWhile isJsWs =
      stringifyVal v ++ List.replicate n ' ' := by
    rw [hl, List.cons_append, List.dropWhile_cons, if_neg (by simp [hcws])]
  rw [h1, List.reverse_append, List.reverse_replicate,
    dropWhile_replicate_space]
  have h2 : (stringifyVal v).reverse.dropWhile isJsWs =
      (stringifyVal v).reverse := by
    cases hrev : (stringifyVal v).reverse with
    | nil => rfl
    | cons d2 l2 =>
      have hlast : (stringifyVal v).getLast? = some d2 := by
        rw [← List.head?_reverse, hrev]
        rfl
      have hdd : d2 = d := by
        rw [hd] at hlast
        exact (Option.some_inj.mp hlast).symm
      rw [List.dropWhile_cons, if_neg (by simp [hdd, hdws])]
  rw [h2, List.reverse_reverse]


/-- C8: on every JSON store, decoding the encoded payload returns the payload:
`deserializeData` (UTF-8 decode, trim, JSON.parse) inverts
`serializeValueForStore` (JSON.stringify, space padding to four bytes, UTF-8
encode) on every modelled JSON value. -/
theorem c8_json_roundtrip (storeMeta : StoreMetadata) (v : JVal)
    (hjson : storeMeta.dataType = DataType.JSON) :
    (serializeValueForStore storeMeta (Value.json v)).bind
      (deserializeData storeMeta) = Except.ok (Value.json v) := by
  have hpad : padTo4Bytes (utf8Encode (padJsonTo4Bytes (stringifyVal v))) =
      utf8Encode (padJsonTo4Bytes (stringifyVal v)) := by
    unfold padTo4Bytes
    rw [if_pos (utf8Encode_padJson_len (stringifyVal v))]
  have hser : serializeValueForStore storeMeta (Value.json v) =
      Except.ok (utf8Encode (padJsonTo4Bytes (stringifyVal v))) := by
    unfold serializeValueForStore
    rw [hjson]
    dsimp only
    rw [hpad]
  have htrim : jsTrim (padJsonTo4Bytes (stringifyVal v)) = stringifyVal v := by
    unfold padJsonTo4Bytes
    by_cases h : (utf8Encode (stringifyVal v)).length % 4 = 0
    · rw [if_pos h]
      have := jsTrim_stringify_pad v 0
      simpa using this
    · rw [if_neg h]
      exact jsTrim_stringify_pad v _
  have hdes : deserializeData storeMeta
      (utf8Encode (padJsonTo4Bytes (stringifyVal v))) =
      Except.ok (Value.json v) := by
    unfold deserializeData
    rw [hjson]
    dsimp only
    rw [utf8Decode_encode, htrim, jsonParse_stringify]
  rw [hser]
  exact hdes

/-- A JSON store as `createObjectStore` with dataType JSON would record it. -/
def storeC8 : StoreMetadata :=
  { storeName := "J", dataType := DataType.JSON, typedArrayType := none,
    bufferSize := 1048576, rowSize := none, rowsPerBuffer := none,
    totalRows := 0, buffers := [], rows := [], sortDefinition := [],
    sortsDirty := false }

theorem c8_json_roundtrip_witness :
    storeC8.dataType = DataType.JSON ∧
    (serializeValueForStore storeC8
        (Value.json (JVal.obj (JObj.cons ['i', 'd'] (JVal.num (-42))
          JObj.nil)))).bind (deserializeData storeC8) =
      Except.ok (Value.json (JVal.obj (JObj.cons ['i', 'd'] (JVal.num (-42))
        JObj.nil))) :=
  ⟨rfl, c8_json_roundtrip storeC8
    (JVal.obj (JObj.cons ['i', 'd'] (JVal.num (-42)) JObj.nil)) rfl⟩


/-! ## VramDataBase state and the row metadata machinery

The database object: the store map, the per-store key maps, the queue of
pending GPU writes and the readiness flag.  JS exceptions are modelled by an
`Option String` error component (or `Except`); mutations made before a throw
survive it, as they do in the source. -/

/-- One entry of `pendingWrites`.  The source stores object references
(`storeMeta`, `rowMetadata`, `gpuBuffer`); the model keys the store by name
and the buffer by index, and snapshots the row record (flushWrites only reads
its `offset`). -/
structure PendingWrite where
  storeName : String
  rowMetadata : RowMetadata
  arrayBuffer : List Nat
  bufferIndex : Nat
  operationType : String
  key : Option String
deriving DecidableEq, Repr

structure VramDataBase where
  storeMetadataMap : List (String × StoreMetadata)
  storeKeyMap : List (String × List (String × Nat))
  pendingWrites : List PendingWrite
  isReady : Bool
  batchSize : Nat

/-- findActiveRowMetadata: the key map entry, resolved through `rows.find`,
dropped when the inactive flag is set. -/
def findActiveRowMetadata (keyMap : List (String × Nat)) (key : String)
    (rows : List RowMetadata) : Option RowMetadata :=
  match mapGet keyMap key with
  | none => none
  | some rowId =>
    match rows.find? (fun r => r.rowId == rowId) with
    | none => none
    | some r => if rowInactive r then none else some r

/-- The shared "create a fresh row record" tail of findOrCreateRowMetadata
(and of the grow branch of updateRowOnOverwrite): rowId is the positional
`rows.length + 1`, the record points at the allocation just returned, and the
key map is rebound.  The final component is the ghost allocation log. -/
def mkNewRow (sm : StoreMetadata) (bufferIndex offset size : Nat)
    (keyMap : List (String × Nat)) (key : String) :
    RowMetadata × StoreMetadata × List (String × Nat) × List (Nat × Nat) :=
  let newRowId := sm.rows.length + 1
  let newRow : RowMetadata :=
    { rowId := newRowId, bufferIndex := bufferIndex, offset := offset,
      length := size, flags := none }
  (newRow, { sm with rows := sm.rows ++ [newRow] },
   mapSet keyMap key newRowId, [(bufferIndex, offset)])

/-- updateRowOnOverwrite: a payload that fits is rewritten in place (the
record possibly shrunk); a growing payload deactivates the old record,
allocates again and appends a fresh record.  The mutation of the row object
is modelled by mapping over `rows` at its unique rowId.  The last component
logs the (bufferIndex, offset) pairs this function obtained from the
allocator. -/
def updateRowOnOverwrite (storeMeta : StoreMetadata) (oldRowMeta : RowMetadata)
    (size : Nat) (keyMap : List (String × Nat)) (key : String) :
    RowMetadata × StoreMetadata × List (String × Nat) × List (Nat × Nat) :=
  if size ≤ oldRowMeta.length then
    let newRow := if size < oldRowMeta.length
      then { oldRowMeta with length := size } else oldRowMeta
    (newRow,
     { storeMeta with rows := storeMeta.rows.map (fun r =>
         if r.rowId == oldRowMeta.rowId then newRow else r) },
     keyMap, [])
  else
    let inactivated := { oldRowMeta with
      flags := some ((oldRowMeta.flags.getD 0) ||| ROW_INACTIVE_FLAG) }
    let sm2 := { storeMeta with rows := storeMeta.rows.map (fun r =>
      if r.rowId == oldRowMeta.rowId then inactivated else r) }
    let res := findOrCreateSpace sm2 size
    mkNewRow res.1 res.2.1 res.2.2 size keyMap key

/-- findOrCreateRowMetadata: duplicate active rows reject `add` mode before
anything is touched; otherwise the allocator is consulted once up front, and
the result is either bound to a fresh record (no row, or an inactive row), or
handed to updateRowOnOverwrite for `put` (whose own allocation, if any, is
appended to the ghost log after the up-front one). -/
def findOrCreateRowMetadata (storeMeta : StoreMetadata)
    (keyMap : List (String × Nat)) (key : String) (size : Nat)
    (mode : String) :
    Except String (RowMetadata × StoreMetadata × List (String × Nat) ×
      List (Nat × Nat)) :=
  match (match mapGet keyMap key with
         | none => none
         | some rowId => storeMeta.rows.find? (fun r => r.rowId == rowId)) with
  | some r =>
    if mode = "add" ∧ rowInactive r = false then
      Except.error ("Record with key \x22" ++ key ++
        "\x22 already exists in store and overwriting is not allowed (add mode).")
    else
      let res := findOrCreateSpace storeMeta size
      if rowInactive r then
        Except.ok (mkNewRow res.1 res.2.1 res.2.2 size keyMap key)
      else if mode = "put" then
        let upd := updateRowOnOverwrite res.1 r size keyMap key
        Except.ok (upd.1, upd.2.1, upd.2.2.1,
          (res.2.1, res.2.2) :: upd.2.2.2)
      else
        Except.ok (r, res.1, keyMap, [(res.2.1, res.2.2)])
  | none =>
    let res := findOrCreateSpace storeMeta size
    Except.ok (mkNewRow res.1 res.2.1 res.2.2 size keyMap key)

/-! ## FlushManager (src/src/Manager/FlushManager.ts) -/

/-- Overwrite `bytes.length` bytes of a buffer's contents starting at
`offset`. -/
def writeSpan (data : Nat → Nat) (offset : Nat) (bytes : List Nat) :
    Nat → Nat :=
  fun i => if offset ≤ i ∧ i < offset + bytes.length
    then bytes.getD (i - offset) 0 else data i

/-- Read `len` bytes of a buffer's contents starting at `offset`. -/
def readSpan (data : Nat → Nat) (offset len : Nat) : List Nat :=
  (List.range len).map (fun i => data (offset + i))

/-- The group keys of `writesByBuffer` in first-occurrence order (a JS Map
keyed by the gpuBuffer object; the model keys by store name and buffer
index). -/
def bufferKeys (ws : List PendingWrite) : List (String × Nat) :=
  ws.foldl (fun acc w =>
    if (w.storeName, w.bufferIndex) ∈ acc then acc
    else acc ++ [(w.storeName, w.bufferIndex)]) []

/-- Stable insertion sort on a numeric key, the model of the (stable)
`Array.prototype.sort` call on each write group. -/
def insertByKey {α : Type} (key : α → Nat) (x : α) : List α → List α
  | [] => [x]
  | y :: ys => if key x < key y then x :: y :: ys else y :: insertByKey key x ys

def stableSortBy {α : Type} (key : α → Nat) (l : List α) : List α :=
  l.foldl (fun acc x => insertByKey key x acc) []

/-- The order flushWrites issues its `writeBuffer` calls in: group by buffer
in first-occurrence order, each group ascending by row offset. -/
def flushOrder (ws : List PendingWrite) : List PendingWrite :=
  (bufferKeys ws).flatMap (fun k =>
    stableSortBy (fun w => w.rowMetadata.offset)
      (ws.filter (fun w => (w.storeName, w.bufferIndex) = k)))

/-- One `writeBuffer` call: the payload lands in the target buffer's bytes at
the row offset.  Nothing else changes: flushWrites updates no row metadata and
no flags (the `key` field the delete path attaches "for the metadata update
during flush" is never read). -/
def applyPendingWrite (smap : List (String × StoreMetadata))
    (w : PendingWrite) : List (String × StoreMetadata) :=
  match mapGet smap w.storeName with
  | none => smap
  | some sm =>
    match sm.buffers.get? w.bufferIndex with
    | none => smap
    | some b =>
      let b2 := { b with
        data := writeSpan b.data w.rowMetadata.offset w.arrayBuffer }
      mapSet smap w.storeName { sm with buffers := sm.buffers.set w.bufferIndex b2 }

/-- flushWrites: apply every queued write to the buffer contents (all
`writeBuffer` calls succeed in the model) and clear the queue. -/
def flushWrites (db : VramDataBase) : VramDataBase :=
  if db.pendingWrites.isEmpty then db
  else
    { db with
        storeMetadataMap :=
          (flushOrder db.pendingWrites).foldl applyPendingWrite
            db.storeMetadataMap,
        pendingWrites := [] }

/-- checkAndFlush: flush when the queue has reached BATCH_SIZE. -/
def checkAndFlush (db : VramDataBase) : VramDataBase :=
  if db.batchSize ≤ db.pendingWrites.length then flushWrites db else db

/-! ## SortManager (src/src/Manager/SortManager.ts) -/

/-- rebuildAllDirtySorts: clear every dirty flag; the per-definition GPU sort
runs only when the `gpuSort` argument is truthy.  The second component is the
ghost log of (store, definition) pairs for which `runGpuSortForDefinition`
is invoked. -/
def rebuildAllDirtySorts (smap : List (String × StoreMetadata))
    (gpuSort : Bool) :
    List (String × StoreMetadata) × List (String × SortDefinition) :=
  (smap.map (fun p =>
     if p.2.sortsDirty then (p.1, { p.2 with sortsDirty := false }) else p),
   smap.flatMap (fun p =>
     if p.2.sortsDirty ∧ p.2.sortDefinition ≠ [] ∧ gpuSort = true then
       p.2.sortDefinition.map (fun d => (p.1, d))
     else []))

/-- The callback resetFlushTimer schedules (nominal 250 ms): flush, then
`rebuildAllDirtySorts()` — called without the `gpuSort` argument, so the
argument is `undefined` — then mark the database ready.  The second component
is the sort-run log of the rebuild. -/
def timedFlushCallback (db : VramDataBase) :
    VramDataBase × List (String × SortDefinition) :=
  let db1 := flushWrites db
  let reb := rebuildAllDirtySorts db1.storeMetadataMap false
  ({ db1 with storeMetadataMap := reb.1, isReady := true }, reb.2)


/-! ## likeToRegex (src/src/IndexedDBWrapper.ts) and a RegExp fragment

The four character stages of likeToRegex followed by the bracket restore
pass, then a parser and matcher for the regular expression fragment its
output can contain: literal characters, backslash escapes, `.`, the `*` and
`?` quantifiers (which the escape set leaves unescaped), and character
classes.  `^...$` anchoring is implicit: the matcher matches the whole key.
Class contents are modelled as literal items (the restore pass is the only
source of classes and never emits a well-formed one); characters that cannot
occur unescaped in likeToRegex output (`( ) | { } + ^ $`, all escaped by
stage two) are treated as literals. -/

def likeStage1 (c : Char) : List Char :=
  if c = '\\' then ['\\', '\\'] else [c]

def isRegexSpecial (c : Char) : Bool :=
  c = '.' || c = '+' || c = '^' || c = '$' || c = '{' || c = '}' ||
  c = '(' || c = ')' || c = '|' || c = '[' || c = ']' || c = '\\'

def likeStage2 (c : Char) : List Char :=
  if isRegexSpecial c then ['\\', c] else [c]

def likeStage3 (c : Char) : List Char :=
  if c = '%' then ['.', '*'] else [c]

def likeStage4 (c : Char) : List Char :=
  if c = '_' then ['.'] else [c]

/-- Split a list at the first occurrence of `c` (the lazy `(.*?)]` scan of
the bracket restore regular expression). -/
def splitAtFirst (c : Char) : List Char → Option (List Char × List Char)
  | [] => none
  | x :: xs =>
    if x = c then some ([], xs)
    else match splitAtFirst c xs with
      | some (a, b) => some (x :: a, b)
      | none => none

/-- The global replace `\\\[(.*?)]` → `[$1]`: left to right, an escaped `[`
followed lazily by anything up to the first `]` is rewritten to an unescaped
class; scanning resumes after each replacement. -/
def bracketRestoreAux : Nat → List Char → List Char
  | 0, cs => cs
  | _+1, [] => []
  | _+1, [c] => [c]
  | fuel+1, c1 :: c2 :: cs =>
    if c1 = '\\' ∧ c2 = '[' then
      match splitAtFirst ']' cs with
      | some (inner, after) =>
        '[' :: (inner ++ (']' :: bracketRestoreAux fuel after))
      | none => c1 :: bracketRestoreAux fuel (c2 :: cs)
    else c1 :: bracketRestoreAux fuel (c2 :: cs)

def bracketRestore (cs : List Char) : List Char :=
  bracketRestoreAux cs.length cs

/-- The source text of the regular expression likeToRegex builds (between the
`^` and `$` anchors). -/
def likeToRegexChars (pattern : List Char) : List Char :=
  bracketRestore ((((pattern.flatMap likeStage1).flatMap likeStage2).flatMap
    likeStage3).flatMap likeStage4)

inductive RAtom where
  | ch (c : Char)
  | dot
  | cls (items : List Char)
deriving DecidableEq, Repr

inductive RPiece where
  | once (a : RAtom)
  | star (a : RAtom)
  | opt (a : RAtom)
deriving DecidableEq, Repr

/-- Parse a character class body after `[`: items until the unescaped closing
bracket, a trailing backslash or an unterminated class being the
`SyntaxError` cases of the RegExp constructor. -/
def parseClassItems : List Char → Option (List Char × List Char)
  | [] => none
  | c :: cs =>
    if c = ']' then some ([], cs)
    else if c = '\\' then
      match cs with
      | [] => none
      | e :: cs2 =>
        match parseClassItems cs2 with
        | some (items, rest) => some (e :: items, rest)
        | none => none
    else
      match parseClassItems cs with
      | some (items, rest) => some (c :: items, rest)
      | none => none

/-- Attach a `*` or `?` quantifier to the atom just parsed. -/
def applyQuant (a : RAtom) (cs : List Char) : RPiece × List Char :=
  match cs with
  | [] => (RPiece.once a, [])
  | c :: cs2 =>
    if c = '*' then (RPiece.star a, cs2)
    else if c = '?' then (RPiece.opt a, cs2)
    else (RPiece.once a, c :: cs2)

/-- Parse the regular expression source into pieces; `none` models the
RegExp constructor throwing a SyntaxError (a dangling backslash, a quantifier
with nothing to repeat, an unterminated class). -/
def parseRegex : Nat → List Char → Option (List RPiece)
  | 0, _ => none
  | _+1, [] => some []
  | fuel+1, c :: cs =>
    if c = '*' ∨ c = '?' then none
    else if c = '\\' then
      match cs with
      | [] => none
      | e :: cs2 =>
        let q := applyQuant (RAtom.ch e) cs2
        match parseRegex fuel q.2 with
        | some ps => some (q.1 :: ps)
        | none => none
    else if c = '[' then
      match parseClassItems cs with
      | none => none
      | some (items, rest) =>
        let q := applyQuant (RAtom.cls items) rest
        match parseRegex fuel q.2 with
        | some ps => some (q.1 :: ps)
        | none => none
    else
      let q := applyQuant (if c = '.' then RAtom.dot else RAtom.ch c) cs
      match parseRegex fuel q.2 with
      | some ps => some (q.1 :: ps)
      | none => none

/-- likeToRegex: build the pattern text and compile it; `none` is the thrown
SyntaxError. -/
def likeToRegex (pattern : List Char) : Option (List RPiece) :=
  parseRegex ((likeToRegexChars pattern).length + 1) (likeToRegexChars pattern)

def isLineTerminator (c : Char) : Bool :=
  c.toNat = 10 || c.toNat = 13 || c.toNat = 0x2028 || c.toNat = 0x2029

def atomMatch : RAtom → Char → Bool
  | RAtom.ch c, k => c == k
  | RAtom.dot, k => !(isLineTerminator k)
  | RAtom.cls items, k => items.contains k

/-- The Kleene star of one atom: try the continuation at every suffix
reachable by consuming atom matches. -/
def rmatchStar (m : Char → Bool) (next : List Char → Bool) : List Char → Bool
  | [] => next []
  | k :: ks => next (k :: ks) || (m k && rmatchStar m next ks)

/-- Anchored matching of the parsed pieces against a whole key
(`regex.test` with the `^...$` anchors). -/
def rmatchPieces : List RPiece → List Char → Bool
  | [], ks => ks.isEmpty
  | RPiece.once a :: ps, ks =>
    match ks with
    | [] => false
    | k :: ks2 => atomMatch a k && rmatchPieces ps ks2
  | RPiece.opt a :: ps, ks =>
    rmatchPieces ps ks ||
      (match ks with
       | [] => false
       | k :: ks2 => atomMatch a k && rmatchPieces ps ks2)
  | RPiece.star a :: ps, ks => rmatchStar (atomMatch a) (rmatchPieces ps) ks

/-- The wildcard test `/[%_\[\]]/.test(key)` of expandWildcard. -/
def hasWildcard (key : List Char) : Bool :=
  key.any (fun c => c = '%' || c = '_' || c = '[' || c = ']')

/-- expandWildcard: keys without wildcard characters pass through; otherwise
the key compiles to a regular expression (which may throw) and the live store
keys are filtered by it. -/
def expandWildcard (key : String) (keyMap : List (String × Nat)) :
    Except String (List String) :=
  if hasWildcard key.data then
    match likeToRegex key.data with
    | none => Except.error "Invalid regular expression"
    | some pieces =>
      Except.ok ((mapKeys keyMap).filter (fun k => rmatchPieces pieces k.data))
  else
    Except.ok [key]

/-- expandAllWildcards: flatMap of expandWildcard (a thrown SyntaxError
propagates). -/
def expandAllWildcards (keys : List String) (keyMap : List (String × Nat)) :
    Except String (List String) :=
  keys.foldlM (fun acc key =>
    (expandWildcard key keyMap).map (fun e => acc ++ e)) []


/-! ## The public operations (StoreManager / VramDataBase) -/

/-- writeRecordToStore: serialize, find or create the row record, check the
target buffer exists, and enqueue the main-store write.  The updated store
and key map are written back into the database maps (the source mutates the
shared objects in place). -/
def writeRecordToStore (db : VramDataBase) (sm : StoreMetadata) (key : String)
    (value : Value) (operationType : String) : Except String VramDataBase :=
  let keyMap := (mapGet db.storeKeyMap sm.storeName).getD []
  match serializeValueForStore sm value with
  | Except.error e => Except.error e
  | Except.ok arrayBuffer =>
    match findOrCreateRowMetadata sm keyMap key arrayBuffer.length
        operationType with
    | Except.error e => Except.error e
    | Except.ok (rowMetadata, sm2, keyMap2, _log) =>
      match getBufferByIndex sm2 rowMetadata.bufferIndex with
      | Except.error e => Except.error e
      | Except.ok _ =>
        Except.ok { db with
          storeMetadataMap := mapSet db.storeMetadataMap sm.storeName sm2,
          storeKeyMap := mapSet db.storeKeyMap sm.storeName keyMap2,
          pendingWrites := db.pendingWrites ++
            [{ storeName := sm.storeName, rowMetadata := rowMetadata,
               arrayBuffer := arrayBuffer,
               bufferIndex := rowMetadata.bufferIndex,
               operationType := operationType, key := none }] }

/-- writeOffsetsForAllDefinitions, at the interface level: the sort-offsets
side channel writes one row per sort definition into the companion
`<storeName>-offsets` store.  The numeric offset payload (Uint32 field
offsets of the JSON sort keys) lies outside the modelled value fragment and
is represented by an empty byte payload; no claim below exercises this
branch, every claim scenario uses a store whose dataType or empty
sortDefinition makes it unreachable. -/
def writeOffsetsForAllDefinitions (db : VramDataBase) (sm : StoreMetadata)
    (key : String) (operationType : String) : VramDataBase :=
  sm.sortDefinition.foldl (fun acc defn =>
    let offsetsName := sm.storeName ++ "-offsets"
    match mapGet acc.storeMetadataMap offsetsName with
    | none => acc
    | some osm =>
      let okm := (mapGet acc.storeKeyMap offsetsName).getD []
      match findOrCreateRowMetadata osm okm
          (key ++ "::" ++ defn.name) 0 operationType with
      | Except.error _ => acc
      | Except.ok (rowMetadata, osm2, okm2, _) =>
        { acc with
            storeMetadataMap := mapSet acc.storeMetadataMap offsetsName osm2,
            storeKeyMap := mapSet acc.storeKeyMap offsetsName okm2,
            pendingWrites := acc.pendingWrites ++
              [{ storeName := offsetsName, rowMetadata := rowMetadata,
                 arrayBuffer := [], bufferIndex := rowMetadata.bufferIndex,
                 operationType := operationType, key := none }] }) db

/-- add: clear the ready flag, require the store, write the main record (a
duplicate key throws here), handle the JSON sort-offsets branch, then reset
the flush timer and maybe flush.  The error component carries a thrown
message; state mutations made before the throw remain. -/
def addOp (db : VramDataBase) (storeName key : String) (value : Value) :
    VramDataBase × Option String :=
  let db1 := { db with isReady := false }
  match mapGet db1.storeMetadataMap storeName with
  | none =>
    (db1, some ("Object store \x22" ++ storeName ++ "\x22 does not exist."))
  | some sm =>
    match writeRecordToStore db1 sm key value "add" with
    | Except.error e => (db1, some e)
    | Except.ok db2 =>
      let db3 :=
        if sm.dataType = DataType.JSON ∧ sm.sortDefinition ≠ [] then
          let cur := (mapGet db2.storeMetadataMap storeName).getD sm
          let curDirty := { cur with sortsDirty := true }
          let smap2 := mapSet db2.storeMetadataMap storeName curDirty
          let db2a := { db2 with storeMetadataMap := smap2 }
          writeOffsetsForAllDefinitions db2a sm key "add"
        else db2
      (checkAndFlush db3, none)

/-- put: identical plumbing with overwrite mode. -/
def putOp (db : VramDataBase) (storeName key : String) (value : Value) :
    VramDataBase × Option String :=
  let db1 := { db with isReady := false }
  match mapGet db1.storeMetadataMap storeName with
  | none =>
    (db1, some ("Object store \x22" ++ storeName ++ "\x22 does not exist."))
  | some sm =>
    match writeRecordToStore db1 sm key value "put" with
    | Except.error e => (db1, some e)
    | Except.ok db2 =>
      let db3 :=
        if sm.dataType = DataType.JSON ∧ sm.sortDefinition ≠ [] then
          let cur := (mapGet db2.storeMetadataMap storeName).getD sm
          let curDirty := { cur with sortsDirty := true }
          let smap2 := mapSet db2.storeMetadataMap storeName curDirty
          let db2a := { db2 with storeMetadataMap := smap2 }
          writeOffsetsForAllDefinitions db2a sm key "put"
        else db2
      (checkAndFlush db3, none)

/-- delete: resolve the active row; when none, return silently.  Otherwise
enqueue a zero payload of the row's length as a "delete" write — with the key
attached "for the metadata update during flush" — and maybe flush.  The row
record itself is not touched here, and flushWrites touches no metadata
either. -/
def deleteOp (db : VramDataBase) (storeName key : String) :
    VramDataBase × Option String :=
  match mapGet db.storeMetadataMap storeName with
  | none =>
    (db, some ("Store \x22" ++ storeName ++ "\x22 does not exist."))
  | some sm =>
    let keyMap := (mapGet db.storeKeyMap storeName).getD []
    match findActiveRowMetadata keyMap key sm.rows with
    | none => (db, none)
    | some rowMetadata =>
      match getBufferByIndex sm rowMetadata.bufferIndex with
      | Except.error e => (db, some e)
      | Except.ok _ =>
        let db2 := { db with pendingWrites := db.pendingWrites ++
          [{ storeName := storeName, rowMetadata := rowMetadata,
             arrayBuffer := List.replicate rowMetadata.length 0,
             bufferIndex := rowMetadata.bufferIndex,
             operationType := "delete", key := some key }] }
        (checkAndFlush db2, none)

/-- The loop body of collectRowInfos: walk the keys with the loop counter
`i`, keeping (row record, result index) for every key that resolves to an
active row. -/
def collectRowInfosAux (keyMap : List (String × Nat)) (sm : StoreMetadata) :
    Nat → List String → List (RowMetadata × Nat)
  | _, [] => []
  | i, key :: ks =>
    match findActiveRowMetadata keyMap key sm.rows with
    | none => collectRowInfosAux keyMap sm (i + 1) ks
    | some r => (r, i) :: collectRowInfosAux keyMap sm (i + 1) ks

/-- collectRowInfos: the (row record, result index) pairs of the keys that
resolve to an active row, in key order. -/
def collectRowInfos (keyMap : List (String × Nat)) (sm : StoreMetadata)
    (keys : List String) : List (RowMetadata × Nat) :=
  collectRowInfosAux keyMap sm 0 keys

/-- The bytes of one row, as the copy steps hand them to deserializeRows. -/
def rowBytes (sm : StoreMetadata) (r : RowMetadata) : List Nat :=
  match sm.buffers.get? r.bufferIndex with
  | none => []
  | some b => readSpan b.data r.offset r.length

/-- readAllRows / deserializeRows: results start as null at every position;
each collected row's bytes are read from its buffer and deserialized into its
position.  A deserialization error propagates (the source would throw). -/
def readAllRows (sm : StoreMetadata) (keyMap : List (String × Nat))
    (keys : List String) : Except String (List (Option Value)) :=
  (collectRowInfos keyMap sm keys).foldlM (fun results info =>
    (deserializeData sm (rowBytes sm info.1)).map
      (fun v => results.set info.2 (some v)))
    (List.replicate keys.length none)

/-- getMultipleByKeys: flush, resolve the store (flushAndGetMetadata throws
when it is missing), expand wildcards, read all expanded keys. -/
def getMultipleByKeysOp (db : VramDataBase) (storeName : String)
    (keys : List String) :
    VramDataBase × Except String (List (Option Value)) :=
  let db1 := flushWrites db
  match mapGet db1.storeMetadataMap storeName with
  | none =>
    (db1, Except.error ("Store \x22" ++ storeName ++ "\x22 does not exist."))
  | some sm =>
    let keyMap := (mapGet db1.storeKeyMap storeName).getD []
    match expandAllWildcards keys keyMap with
    | Except.error e => (db1, Except.error e)
    | Except.ok expandedKeys => (db1, readAllRows sm keyMap expandedKeys)

/-- get: getMultiple with the one key, then the first entry (`results[0]`,
`undefined` — here `none` — when the result array is empty). -/
def getOp (db : VramDataBase) (storeName key : String) :
    VramDataBase × Except String (Option Value) :=
  match getMultipleByKeysOp db storeName [key] with
  | (db1, Except.error e) => (db1, Except.error e)
  | (db1, Except.ok results) => (db1, Except.ok (results.getD 0 none))


/-! ## Claim C1: delete followed by flush

The flush never performs the "metadata update" the delete path prepares for:
no row is ever marked inactive, so after delete + flush the key still resolves
to its (now zeroed) row, get returns the zeroed payload instead of null, and a
subsequent add of the same key throws a duplicate-key error. -/

def storeC1 : StoreMetadata :=
  { storeName := "S", dataType := DataType.ArrayBuffer, typedArrayType := none,
    bufferSize := 1024, rowSize := none, rowsPerBuffer := none, totalRows := 0,
    buffers := [], rows := [], sortDefinition := [], sortsDirty := false }

def dbC1 : VramDataBase :=
  { storeMetadataMap := [("S", storeC1)], storeKeyMap := [("S", [])],
    pendingWrites := [], isReady := true, batchSize := 10000 }

/-- After add("k", 01020304) and a timed flush. -/
def dbC1b : VramDataBase :=
  (timedFlushCallback (addOp dbC1 "S" "k" (Value.bytes [1, 2, 3, 4])).1).1

/-- After delete("k") and another timed flush. -/
def dbC1d : VramDataBase :=
  (timedFlushCallback (deleteOp dbC1b "S" "k").1).1

/-- C1: the claimed behaviour fails in the code.  delete("k") returns
normally and the flush completes, yet (1) no row of the store is marked
INACTIVE, (2) get("k") returns the zeroed four byte payload rather than null,
and (3) a following add("k", v) throws the duplicate-key error instead of
succeeding. -/
theorem c1_delete_flush_bug :
    (deleteOp dbC1b "S" "k").2 = none ∧
    (∀ r ∈ ((mapGet dbC1d.storeMetadataMap "S").getD storeC1).rows,
      rowInactive r = false) ∧
    (getOp dbC1d "S" "k").2 = Except.ok (some (Value.bytes [0, 0, 0, 0])) ∧
    (addOp dbC1d "S" "k" (Value.bytes [5, 6, 7, 8])).2 =
      some ("Record with key \x22k\x22 already exists in store and " ++
        "overwriting is not allowed (add mode).") :=
  ⟨rfl, by decide, rfl, rfl⟩


/-! ## Claim C2: duplicate add fails without mutating the store -/

theorem findActiveRowMetadata_spec {keyMap : List (String × Nat)}
    {key : String} {rows : List RowMetadata} {r : RowMetadata}
    (h : findActiveRowMetadata keyMap key rows = some r) :
    ∃ rowId, mapGet keyMap key = some rowId ∧
      rows.find? (fun x => x.rowId == rowId) = some r ∧
      rowInactive r = false := by
  unfold findActiveRowMetadata at h
  cases hk : mapGet keyMap key with
  | none => rw [hk] at h; simp at h
  | some rowId =>
    rw [hk] at h
    dsimp only at h
    cases hf : rows.find? (fun x => x.rowId == rowId) with
    | none => rw [hf] at h; simp at h
    | some r2 =>
      rw [hf] at h
      dsimp only at h
      by_cases hin : rowInactive r2
      · rw [if_pos hin] at h; simp at h
      · rw [if_neg hin] at h
        cases h
        exact ⟨rowId, rfl, hf, by simpa using hin⟩

/-- C2: an add for a key whose row is active fails with the duplicate-key
error, and the failing call changes nothing but the readiness flag: the store
maps, the key maps and the pending write queue are exactly those of the
initial state, so no row record, key binding or buffer allocation was made
before the throw (in particular a subsequent get still sees the old value).
The serialization hypothesis pins the failure to the duplicate check: the
source serializes the new value before looking at the existing row. -/
theorem c2_duplicate_add (db : VramDataBase) (storeName key : String)
    (value : Value) (sm : StoreMetadata) (r : RowMetadata) (bytes : List Nat)
    (hsm : mapGet db.storeMetadataMap storeName = some sm)
    (hrow : findActiveRowMetadata ((mapGet db.storeKeyMap sm.storeName).getD [])
      key sm.rows = some r)
    (hser : serializeValueForStore sm value = Except.ok bytes) :
    addOp db storeName key value =
      ({ db with isReady := false },
       some ("Record with key \x22" ++ key ++
         "\x22 already exists in store and overwriting is not allowed (add mode).")) := by
  obtain ⟨rowId, hk, hf, hin⟩ := findActiveRowMetadata_spec hrow
  unfold addOp
  dsimp only
  rw [hsm]
  dsimp only
  have hwr : writeRecordToStore { db with isReady := false } sm key value
      "add" = Except.error ("Record with key \x22" ++ key ++
        "\x22 already exists in store and overwriting is not allowed (add mode).") := by
    unfold writeRecordToStore
    dsimp only
    rw [hser]
    dsimp only
    have hfc : findOrCreateRowMetadata sm
        ((mapGet db.storeKeyMap sm.storeName).getD []) key bytes.length "add" =
        Except.error ("Record with key \x22" ++ key ++
          "\x22 already exists in store and overwriting is not allowed (add mode).") := by
      unfold findOrCreateRowMetadata
      rw [hk]
      dsimp only
      rw [hf]
      dsimp only
      rw [if_pos ⟨rfl, hin⟩]
    rw [hfc]
  rw [hwr]

/-- The store of the C2 witness: one chunk, one active row for key "k". -/
def storeC2 : StoreMetadata :=
  { storeName := "S", dataType := DataType.ArrayBuffer, typedArrayType := none,
    bufferSize := 1024, rowSize := none, rowsPerBuffer := none, totalRows := 0,
    buffers := [{ bufferIndex := 0, startRow := -1, rowCount := 1,
                  capacity := 1024, usedBytes := 4, data := fun _ => 0 }],
    rows := [{ rowId := 1, bufferIndex := 0, offset := 0, length := 4,
               flags := none }],
    sortDefinition := [], sortsDirty := false }

def dbC2 : VramDataBase :=
  { storeMetadataMap := [("S", storeC2)],
    storeKeyMap := [("S", [("k", 1)])],
    pendingWrites := [], isReady := true, batchSize := 10000 }

theorem c2_duplicate_add_witness :
    addOp dbC2 "S" "k" (Value.bytes [9]) =
      ({ dbC2 with isReady := false },
       some ("Record with key \x22k\x22 already exists in store and " ++
         "overwriting is not allowed (add mode).")) :=
  c2_duplicate_add dbC2 "S" "k" (Value.bytes [9]) storeC2
    { rowId := 1, bufferIndex := 0, offset := 0, length := 4, flags := none }
    [9, 0, 0, 0] rfl rfl rfl


/-! ## Claim C3: the allocator's row guarantees survive every row update

Rows are created and updated only through findOrCreateRowMetadata (add, put
and the offsets side channel all go through it); delete and flush never touch
row records or buffer bookkeeping, and reads change nothing.  So the claim
reduces to: findOrCreateRowMetadata preserves the strong store invariant,
which implies the claimed alignment/extent/used-bytes properties. -/

theorem getD_map_row (l : List RowMetadata) (g : RowMetadata → RowMetadata)
    (i : Nat) (hi : i < l.length) :
    (l.map g).getD i default = g (l.getD i default) := by
  rw [List.getD_eq_getElem _ _ (by rw [List.length_map]; exact hi),
    List.getElem_map, List.getD_eq_getElem _ _ hi]

theorem storeStrong_appendRow {sm : StoreMetadata} (h : StoreStrong sm)
    {row : RowMetadata}
    (hrid : row.rowId = sm.rows.length + 1)
    (halign : row.offset % 256 = 0)
    (hidx : row.bufferIndex < sm.buffers.length)
    (hext : row.offset + row.length ≤
      (sm.buffers.getD row.bufferIndex default).usedBytes) :
    StoreStrong { sm with rows := sm.rows ++ [row] } := by
  obtain ⟨h1, h2, h3, h4⟩ := h
  refine ⟨h1, h2, ?_, ?_⟩
  · intro r hr
    rcases List.mem_append.mp hr with hr | hr
    · exact h3 r hr
    · simp only [List.mem_singleton] at hr
      subst hr
      exact ⟨halign, hidx, hext⟩
  · intro i hi
    simp only [List.length_append, List.length_singleton] at hi
    rcases Nat.lt_or_ge i sm.rows.length with hlt | hge
    · rw [List.getD_append _ _ _ _ hlt]
      exact h4 i hlt
    · have hie : i = sm.rows.length := by omega
      subst hie
      rw [List.getD_append_right _ _ _ _ (le_refl _)]
      simpa using hrid

theorem storeStrong_replaceRow {sm : StoreMetadata} (h : StoreStrong sm)
    {old nrow : RowMetadata}
    (hmem : old ∈ sm.rows)
    (hrid : nrow.rowId = old.rowId)
    (hoff : nrow.offset = old.offset)
    (hbi : nrow.bufferIndex = old.bufferIndex)
    (hlen : nrow.length ≤ old.length) :
    StoreStrong { sm with
      rows := sm.rows.map (fun r => if r.rowId == old.rowId then nrow else r) } := by
  obtain ⟨h1, h2, h3, h4⟩ := h
  have hold := h3 old hmem
  refine ⟨h1, h2, ?_, ?_⟩
  · intro r hr
    dsimp only at hr ⊢
    simp only [List.mem_map] at hr
    obtain ⟨y, hy, hyr⟩ := hr
    by_cases hb : (y.rowId == old.rowId) = true
    · rw [if_pos hb] at hyr
      subst hyr
      refine ⟨by rw [hoff]; exact hold.1, by rw [hbi]; exact hold.2.1, ?_⟩
      rw [hoff, hbi]
      have := hold.2.2
      omega
    · rw [if_neg hb] at hyr
      subst hyr
      exact h3 y hy
  · intro i hi
    dsimp only at hi ⊢
    simp only [List.length_map] at hi
    rw [getD_map_row _ _ _ hi]
    by_cases hb : ((sm.rows.getD i default).rowId == old.rowId) = true
    · rw [if_pos hb]
      have hbe : (sm.rows.getD i default).rowId = old.rowId := by
        simpa using hb
      rw [hrid, ← hbe]
      exact h4 i hi
    · rw [if_neg hb]
      exact h4 i hi

/-- C3: row creation and overwrite preserve the strong invariant, and with it
the claimed properties: every row is 256 byte aligned, its extent lies within
its chunk's used bytes (hence within the chunk capacity), and every chunk's
used bytes stay at most its capacity. -/
theorem c3_row_invariant (sm : StoreMetadata) (keyMap : List (String × Nat))
    (key : String) (size : Nat) (mode : String) (row : RowMetadata)
    (sm2 : StoreMetadata) (km2 : List (String × Nat)) (log : List (Nat × Nat))
    (h : StoreStrong sm)
    (hres : findOrCreateRowMetadata sm keyMap key size mode =
      Except.ok (row, sm2, km2, log)) :
    StoreStrong sm2 ∧ StoreClaimOk sm2 := by
  suffices hS2 : StoreStrong sm2 from ⟨hS2, storeStrong_claimOk hS2⟩
  obtain ⟨hS, halign, hrows, _hbs, hidx, hext, _hm1, _hm2⟩ :=
    findOrCreateSpace_ok sm size h
  unfold findOrCreateRowMetadata at hres
  cases hk : mapGet keyMap key with
  | none =>
    rw [hk] at hres
    dsimp only at hres
    simp only [mkNewRow, Except.ok.injEq, Prod.mk.injEq] at hres
    obtain ⟨_hrow, hsm, _hkm, _hlog⟩ := hres
    subst hsm
    exact storeStrong_appendRow hS rfl halign hidx hext
  | some rowId =>
    rw [hk] at hres
    dsimp only at hres
    cases hf : sm.rows.find? (fun r => r.rowId == rowId) with
    | none =>
      rw [hf] at hres
      dsimp only at hres
      simp only [mkNewRow, Except.ok.injEq, Prod.mk.injEq] at hres
      obtain ⟨_hrow, hsm, _hkm, _hlog⟩ := hres
      subst hsm
      exact storeStrong_appendRow hS rfl halign hidx hext
    | some r =>
      rw [hf] at hres
      dsimp only at hres
      have hmem : r ∈ (findOrCreateSpace sm size).1.rows := by
        rw [hrows]
        exact List.mem_of_find?_eq_some hf
      by_cases hdup : mode = "add" ∧ rowInactive r = false
      · rw [if_pos hdup] at hres
        simp at hres
      · rw [if_neg hdup] at hres
        by_cases hin : rowInactive r = true
        · rw [if_pos hin] at hres
          simp only [mkNewRow, Except.ok.injEq, Prod.mk.injEq] at hres
          obtain ⟨_hrow, hsm, _hkm, _hlog⟩ := hres
          subst hsm
          exact storeStrong_appendRow hS rfl halign hidx hext
        · rw [if_neg hin] at hres
          by_cases hput : mode = "put"
          · rw [if_pos hput] at hres
            unfold updateRowOnOverwrite at hres
            by_cases hfits : size ≤ r.length
            · rw [if_pos hfits] at hres
              dsimp only at hres
              simp only [Except.ok.injEq, Prod.mk.injEq] at hres
              obtain ⟨_hrow, hsm, _hkm, _hlog⟩ := hres
              subst hsm
              by_cases hlt : size < r.length
              · simp only [if_pos hlt]
                exact storeStrong_replaceRow hS hmem rfl rfl rfl
                  (by dsimp only; omega)
              · simp only [if_neg hlt]
                exact storeStrong_replaceRow hS hmem rfl rfl rfl (le_refl _)
            · rw [if_neg hfits] at hres
              dsimp only at hres
              have hS2 : StoreStrong
                  { (findOrCreateSpace sm size).1 with
                      rows := (findOrCreateSpace sm size).1.rows.map
                        (fun x => if x.rowId == r.rowId then
                          { r with flags := some ((r.flags.getD 0) |||
                              ROW_INACTIVE_FLAG) }
                          else x) } :=
                storeStrong_replaceRow hS hmem rfl rfl rfl (le_refl _)
              obtain ⟨hS3, halign3, _hrows3, _hbs3, hidx3, hext3, _h31, _h32⟩ :=
                findOrCreateSpace_ok _ size hS2
              simp only [mkNewRow, Except.ok.injEq, Prod.mk.injEq] at hres
              obtain ⟨_hrow, hsm, _hkm, _hlog⟩ := hres
              subst hsm
              exact storeStrong_appendRow hS3 rfl halign3 hidx3 hext3
          · rw [if_neg hput] at hres
            simp only [Except.ok.injEq, Prod.mk.injEq] at hres
            obtain ⟨_hrow, hsm, _hkm, _hlog⟩ := hres
            subst hsm
            exact hS


/-- The store after adding key "k2" to `storeC2`: the last chunk grows to 260
used bytes and a second aligned row appears at offset 256. -/
def smC3w : StoreMetadata :=
  { storeC2 with
      buffers := [{ bufferIndex := 0, startRow := -1, rowCount := 2,
                    capacity := 1024, usedBytes := 260, data := fun _ => 0 }],
      rows := [{ rowId := 1, bufferIndex := 0, offset := 0, length := 4,
                 flags := none },
               { rowId := 2, bufferIndex := 0, offset := 256, length := 4,
                 flags := none }] }

theorem c3_row_invariant_witness :
    StoreStrong storeC2 ∧ (StoreStrong smC3w ∧ StoreClaimOk smC3w) :=
  ⟨by unfold StoreStrong storeC2; decide,
   c3_row_invariant storeC2 [("k", 1)] "k2" 4 "add"
     { rowId := 2, bufferIndex := 0, offset := 256, length := 4, flags := none }
     smC3w [("k", 1), ("k2", 2)] [(0, 256)]
     (by unfold StoreStrong storeC2; decide) rfl⟩


/-! ## Claim C9: the up-front allocation of every add/put

findOrCreateRowMetadata consults the allocator before examining the existing
row; the claim's "strictly increases used_bytes" is refuted by a zero byte
payload put in place at an aligned used-bytes boundary, and the surviving
content is the call-discipline characterization: an in-place put makes
exactly one allocator call whose reservation no row ever references, and a
growing put makes two, the row referencing only the second. -/

theorem findOrCreateSpace_rows (sm : StoreMetadata) (size : Nat) :
    (findOrCreateSpace sm size).1.rows = sm.rows := by
  unfold findOrCreateSpace allocateFirstBufferChunk useSpaceInLastBuffer
    allocateNewBufferChunk
  split
  · rfl
  · split
    · split
      · rfl
      · rfl
    · rfl

/-- The record an in-place put keeps: the old row, shrunk when the payload is
strictly smaller. -/
def c9InPlaceRow (r : RowMetadata) (size : Nat) : RowMetadata :=
  if size < r.length then { r with length := size } else r

/-- The store after an in-place put: the allocator's chunk bookkeeping from
the up-front call, the rows rewritten only at the put row's id. -/
def c9InPlaceStore (sm : StoreMetadata) (r : RowMetadata) (size : Nat) :
    StoreMetadata :=
  { (findOrCreateSpace sm size).1 with
      rows := (findOrCreateSpace sm size).1.rows.map
        (fun x => if x.rowId == r.rowId then c9InPlaceRow r size else x) }

def c9Inactivated (r : RowMetadata) : RowMetadata :=
  { r with flags := some ((r.flags.getD 0) ||| ROW_INACTIVE_FLAG) }

/-- The intermediate store of a growing put: the up-front allocation applied
and the old row deactivated. -/
def c9GrowStore (sm : StoreMetadata) (r : RowMetadata) (size : Nat) :
    StoreMetadata :=
  { (findOrCreateSpace sm size).1 with
      rows := (findOrCreateSpace sm size).1.rows.map
        (fun x => if x.rowId == r.rowId then c9Inactivated r else x) }

/-- The fresh record of a growing put, pointing at the second allocation. -/
def c9GrowRow (sm : StoreMetadata) (r : RowMetadata) (size : Nat) :
    RowMetadata :=
  { rowId := (findOrCreateSpace (c9GrowStore sm r size) size).1.rows.length + 1,
    bufferIndex := (findOrCreateSpace (c9GrowStore sm r size) size).2.1,
    offset := (findOrCreateSpace (c9GrowStore sm r size) size).2.2,
    length := size, flags := none }

def c9GrowStore2 (sm : StoreMetadata) (r : RowMetadata) (size : Nat) :
    StoreMetadata :=
  { (findOrCreateSpace (c9GrowStore sm r size) size).1 with
      rows := (findOrCreateSpace (c9GrowStore sm r size) size).1.rows ++
        [c9GrowRow sm r size] }

/-- C9, amended.  A put on an active row always performs the up-front
allocator call; when the payload fits, that is the only call, its reservation
is bound to no row (the row list keeps its length, only the put row's record
is rewritten in place), and the store keeps the chunk bookkeeping the unused
allocation caused; when the payload grows, a second call happens and the
appended row references exactly the second allocation. -/
theorem c9_amended (sm : StoreMetadata) (keyMap : List (String × Nat))
    (key : String) (size : Nat) (rowId : Nat) (r : RowMetadata)
    (hk : mapGet keyMap key = some rowId)
    (hf : sm.rows.find? (fun x => x.rowId == rowId) = some r)
    (hact : rowInactive r = false) :
    (size ≤ r.length →
      findOrCreateRowMetadata sm keyMap key size "put" =
        Except.ok (c9InPlaceRow r size, c9InPlaceStore sm r size, keyMap,
          [((findOrCreateSpace sm size).2.1,
            (findOrCreateSpace sm size).2.2)]) ∧
      (c9InPlaceStore sm r size).rows.length = sm.rows.length) ∧
    (r.length < size →
      findOrCreateRowMetadata sm keyMap key size "put" =
        Except.ok (c9GrowRow sm r size, c9GrowStore2 sm r size,
          mapSet keyMap key
            ((findOrCreateSpace (c9GrowStore sm r size) size).1.rows.length + 1),
          [((findOrCreateSpace sm size).2.1,
            (findOrCreateSpace sm size).2.2),
           ((findOrCreateSpace (c9GrowStore sm r size) size).2.1,
            (findOrCreateSpace (c9GrowStore sm r size) size).2.2)]) ∧
      (c9GrowStore2 sm r size).rows =
        (findOrCreateSpace (c9GrowStore sm r size) size).1.rows ++
          [c9GrowRow sm r size] ∧
      (c9GrowRow sm r size).bufferIndex =
        (findOrCreateSpace (c9GrowStore sm r size) size).2.1 ∧
      (c9GrowRow sm r size).offset =
        (findOrCreateSpace (c9GrowStore sm r size) size).2.2) := by
  have hnadd : ¬("put" = "add" ∧ rowInactive r = false) := by
    rintro ⟨hcon, _⟩
    exact absurd hcon (by decide)
  have hnin : ¬(rowInactive r = true) := by rw [hact]; simp
  constructor
  · intro hfits
    constructor
    · unfold findOrCreateRowMetadata
      rw [hk]
      dsimp only
      rw [hf]
      dsimp only
      rw [if_neg hnadd, if_neg hnin, if_pos rfl]
      unfold updateRowOnOverwrite
      rw [if_pos hfits]
      dsimp only
      unfold c9InPlaceStore c9InPlaceRow
      rfl
    · unfold c9InPlaceStore
      dsimp only
      rw [List.length_map, findOrCreateSpace_rows]
  · intro hgrow
    refine ⟨?_, rfl, rfl, rfl⟩
    unfold findOrCreateRowMetadata
    rw [hk]
    dsimp only
    rw [hf]
    dsimp only
    rw [if_neg hnadd, if_neg hnin, if_pos rfl]
    unfold updateRowOnOverwrite
    rw [if_neg (by omega : ¬ size ≤ r.length)]
    dsimp only
    unfold mkNewRow c9GrowStore2 c9GrowRow c9GrowStore c9Inactivated
    rfl

/-- The C9 counterexample store: one chunk with an aligned 256 used bytes and
one active zero length row. -/
def storeC9 : StoreMetadata :=
  { storeName := "S", dataType := DataType.ArrayBuffer, typedArrayType := none,
    bufferSize := 1024, rowSize := none, rowsPerBuffer := none, totalRows := 0,
    buffers := [{ bufferIndex := 0, startRow := -1, rowCount := 1,
                  capacity := 1024, usedBytes := 256, data := fun _ => 0 }],
    rows := [{ rowId := 1, bufferIndex := 0, offset := 0, length := 0,
               flags := none }],
    sortDefinition := [], sortsDirty := false }

def rowC9 : RowMetadata :=
  { rowId := 1, bufferIndex := 0, offset := 0, length := 0, flags := none }

/-- The C9 counterexample result state: the allocator call bumped the chunk's
rowCount, yet used bytes and the row list are unchanged. -/
def smC9after : StoreMetadata :=
  { storeC9 with
      buffers := [{ bufferIndex := 0, startRow := -1, rowCount := 2,
                    capacity := 1024, usedBytes := 256, data := fun _ => 0 }] }

/-- C9, counterexample.  A put of an empty payload into an existing zero
length row performs the allocator call, but the last chunk's used bytes do
not strictly increase and no row record changes: the claimed strict increase
is false. -/
theorem c9_counterexample :
    findOrCreateRowMetadata storeC9 [("k", 1)] "k" 0 "put" =
      Except.ok (rowC9, smC9after, [("k", 1)], [(0, 256)]) ∧
    (smC9after.buffers.getLastD default).usedBytes =
      (storeC9.buffers.getLastD default).usedBytes ∧
    smC9after.rows = storeC9.rows :=
  ⟨rfl, rfl, rfl⟩

theorem c9_amended_witness :
    findOrCreateRowMetadata storeC9 [("k", 1)] "k" 0 "put" =
      Except.ok (c9InPlaceRow rowC9 0, c9InPlaceStore storeC9 rowC9 0,
        [("k", 1)],
        [((findOrCreateSpace storeC9 0).2.1,
          (findOrCreateSpace storeC9 0).2.2)]) ∧
    (c9InPlaceStore storeC9 rowC9 0).rows.length = storeC9.rows.length :=
  (c9_amended storeC9 [("k", 1)] "k" 0 1 rowC9 rfl rfl rfl).1 (by decide)


/-! ## Claim C7: the timed flush callback and the sort rebuild

The debounce timer's callback invokes `rebuildAllDirtySorts()` with no
argument; `gpuSort` is therefore undefined, the per-definition rebuild loop is
skipped for every store, and the callback only flushes and clears the dirty
flags. -/

/-- C7, amended.  When the debounce timer expires, the handler flushes all
pending writes, clears every store's sorts-dirty flag and marks the database
ready — but runs the GPU sort rebuild for no (store, definition) pair at all:
the rebuild loop is dead because the callback passes no `gpuSort` argument. -/
theorem c7_amended (db : VramDataBase) :
    (timedFlushCallback db).2 = [] ∧
    (timedFlushCallback db).1.pendingWrites = [] ∧
    (∀ p ∈ (timedFlushCallback db).1.storeMetadataMap,
      p.2.sortsDirty = false) ∧
    (timedFlushCallback db).1.isReady = true := by
  refine ⟨?_, ?_, ?_, rfl⟩
  · show (rebuildAllDirtySorts (flushWrites db).storeMetadataMap false).2 = []
    unfold rebuildAllDirtySorts
    dsimp only
    induction (flushWrites db).storeMetadataMap with
    | nil => rfl
    | cons p ps ih =>
      rw [List.flatMap_cons, if_neg (by simp), ih]
      rfl
  · show (flushWrites db).pendingWrites = []
    unfold flushWrites
    by_cases hemp : db.pendingWrites.isEmpty
    · rw [if_pos hemp]
      exact List.isEmpty_iff.mp hemp
    · rw [if_neg hemp]
  · intro p hp
    have hp2 : p ∈ (rebuildAllDirtySorts
        (flushWrites db).storeMetadataMap false).1 := hp
    unfold rebuildAllDirtySorts at hp2
    dsimp only at hp2
    simp only [List.mem_map] at hp2
    obtain ⟨q, _, hq⟩ := hp2
    by_cases hd : q.2.sortsDirty = true
    · rw [if_pos hd] at hq
      rw [← hq]
    · rw [if_neg hd] at hq
      subst hq
      simpa using hd

/-- The C7 counterexample database: a JSON store with one sort definition,
its sorts marked dirty, and one pending write. -/
def sortDefC7 : SortDefinition :=
  { name := "byId",
    sortFields := [{ sortColumn := "id", path := "id",
                     sortDirection := SortDirection.Asc,
                     dataType := SortFieldDataType.string }] }

def storeC7 : StoreMetadata :=
  { storeName := "J", dataType := DataType.JSON, typedArrayType := none,
    bufferSize := 1024, rowSize := none, rowsPerBuffer := none, totalRows := 0,
    buffers := [{ bufferIndex := 0, startRow := -1, rowCount := 1,
                  capacity := 1024, usedBytes := 4, data := fun _ => 0 }],
    rows := [{ rowId := 1, bufferIndex := 0, offset := 0, length := 4,
               flags := none }],
    sortDefinition := [sortDefC7], sortsDirty := true }

def pwC7 : PendingWrite :=
  { storeName := "J",
    rowMetadata := { rowId := 1, bufferIndex := 0, offset := 0, length := 4,
                     flags := none },
    arrayBuffer := [1, 2, 3, 4], bufferIndex := 0,
    operationType := "add", key := none }

def dbC7 : VramDataBase :=
  { storeMetadataMap := [("J", storeC7)],
    storeKeyMap := [("J", [("k", 1)])],
    pendingWrites := [pwC7],
    isReady := false, batchSize := 10000 }

/-- C7, counterexample.  `dbC7` has a JSON store whose sorts-dirty flag is set
and whose sort definition list is nonempty, so the claim requires the expiring
timer to run the GPU rebuild once for its definition; the callback's run log
is empty — no rebuild happens — even though the flush itself completes and
the dirty flag is cleared. -/
theorem c7_counterexample :
    storeC7.sortsDirty = true ∧
    storeC7.sortDefinition ≠ [] ∧
    storeC7.dataType = DataType.JSON ∧
    (timedFlushCallback dbC7).2 = [] ∧
    (timedFlushCallback dbC7).1.pendingWrites = [] ∧
    (∀ p ∈ (timedFlushCallback dbC7).1.storeMetadataMap,
      p.2.sortsDirty = false) :=
  ⟨rfl, by decide, rfl, rfl, rfl, by decide⟩


/-! ## Claim C5: what the LIKE translation actually produces

The escape set of likeToRegex omits `*` and `?`, so those stay regex
quantifiers; and a pattern with a bracket class never compiles (the escape
pass escapes both brackets and the restore regular expression stops at the
escaped closing bracket's `]`, leaving the class unterminated).  For patterns
avoiding `* ? [ ] \`, the translation is exactly LIKE semantics with `%` and
`_` ranging over non-line-terminator characters. -/

/-- The per-character translation likeToRegex performs on a pattern free of
`* ? [ ] \`. -/
def likeTr (c : Char) : List Char :=
  if isRegexSpecial c then ['\\', c]
  else if c = '%' then ['.', '*']
  else if c = '_' then ['.']
  else [c]

/-- The piece such a character parses to. -/
def likePc (c : Char) : RPiece :=
  if isRegexSpecial c then RPiece.once (RAtom.ch c)
  else if c = '%' then RPiece.star RAtom.dot
  else if c = '_' then RPiece.once RAtom.dot
  else RPiece.once (RAtom.ch c)

/-- SQL-LIKE semantics as the claim means them, with the JavaScript `.`
caveat: `%` and `_` do not match line terminators. -/
def likeMatch : List Char → List Char → Bool
  | [], ks => ks.isEmpty
  | p :: ps, ks =>
    if p = '%' then
      rmatchStar (fun k => !(isLineTerminator k)) (likeMatch ps) ks
    else if p = '_' then
      match ks with
      | [] => false
      | k :: ks2 => (!(isLineTerminator k)) && likeMatch ps ks2
    else
      match ks with
      | [] => false
      | k :: ks2 => (p == k) && likeMatch ps ks2

/-- A character of a pattern in the claim's fragment. -/
@[reducible] def c5Safe (c : Char) : Prop :=
  c ≠ '*' ∧ c ≠ '?' ∧ c ≠ '[' ∧ c ≠ ']' ∧ c ≠ '\\'

theorem bracketRestoreAux_id : ∀ (fuel : Nat) (cs : List Char),
    (∀ c ∈ cs, c ≠ '[') → bracketRestoreAux fuel cs = cs := by
  intro fuel
  induction fuel with
  | zero => intro cs _; rfl
  | succ fuel ih =>
    intro cs hcs
    match cs with
    | [] => rfl
    | [c] => rfl
    | c1 :: c2 :: cs =>
      have h2 : c2 ≠ '[' := hcs c2 (by simp)
      rw [bracketRestoreAux, if_neg (by rintro ⟨_, hcon⟩; exact h2 hcon)]
      rw [ih (c2 :: cs) (fun c hc => hcs c (List.mem_cons_of_mem _ hc))]

theorem stages_safe (c : Char) (hc : c5Safe c) :
    (((likeStage1 c).flatMap likeStage2).flatMap likeStage3).flatMap
      likeStage4 = likeTr c := by
  obtain ⟨h1, h2, h3, h4, h5⟩ := hc
  by_cases hsp : isRegexSpecial c = true
  · simp only [isRegexSpecial, Bool.or_eq_true, decide_eq_true_eq] at hsp
    rcases hsp with ((((((((((h | h) | h) | h) | h) | h) | h) | h) | h) | h) | h) | h
    all_goals first
      | (subst h; rfl)
      | (exact absurd h h3)
      | (exact absurd h h4)
      | (exact absurd h h5)
  · have hsp2 : isRegexSpecial c = false := by
      cases hb : isRegexSpecial c
      · rfl
      · exact absurd hb hsp
    by_cases hpc : c = '%'
    · subst hpc; rfl
    · by_cases huc : c = '_'
      · subst huc; rfl
      · have e1 : likeStage1 c = [c] := by rw [likeStage1, if_neg h5]
        have e2 : likeStage2 c = [c] := by
          rw [likeStage2, if_neg (by rw [hsp2]; simp)]
        have e3 : likeStage3 c = [c] := by rw [likeStage3, if_neg hpc]
        have e4 : likeStage4 c = [c] := by rw [likeStage4, if_neg huc]
        rw [e1]
        simp only [List.flatMap_cons, List.flatMap_nil, List.append_nil]
        rw [e2]
        simp only [List.flatMap_cons, List.flatMap_nil, List.append_nil]
        rw [e3]
        simp only [List.flatMap_cons, List.flatMap_nil, List.append_nil]
        rw [e4, likeTr, if_neg (by rw [hsp2]; simp), if_neg hpc, if_neg huc]

theorem likeTr_no_bracket (c : Char) (hc : c5Safe c) :
    ∀ x ∈ likeTr c, x ≠ '[' := by
  obtain ⟨h1, h2, h3, h4, h5⟩ := hc
  intro x hx
  unfold likeTr at hx
  by_cases hsp : isRegexSpecial c = true
  · rw [if_pos hsp] at hx
    simp only [List.mem_cons, List.not_mem_nil, or_false] at hx
    rcases hx with hx | hx
    · subst hx; decide
    · subst hx; exact h3
  · rw [if_neg hsp] at hx
    by_cases hpc : c = '%'
    · rw [if_pos hpc] at hx
      simp only [List.mem_cons, List.not_mem_nil, or_false] at hx
      rcases hx with hx | hx
      · subst hx; decide
      · subst hx; decide
    · rw [if_neg hpc] at hx
      by_cases huc : c = '_'
      · rw [if_pos huc] at hx
        simp only [List.mem_cons, List.not_mem_nil, or_false] at hx
        subst hx; decide
      · rw [if_neg huc] at hx
        simp only [List.mem_cons, List.not_mem_nil, or_false] at hx
        subst hx; exact h3

theorem likeToRegexChars_safe (pattern : List Char)
    (hsafe : ∀ c ∈ pattern, c5Safe c) :
    likeToRegexChars pattern = pattern.flatMap likeTr := by
  unfold likeToRegexChars
  have hstages : (((pattern.flatMap likeStage1).flatMap likeStage2).flatMap
      likeStage3).flatMap likeStage4 = pattern.flatMap likeTr := by
    induction pattern with
    | nil => rfl
    | cons c p ih =>
      rw [List.flatMap_cons, List.flatMap_append, List.flatMap_append,
        List.flatMap_append, List.flatMap_cons]
      rw [ih (fun x hx => hsafe x (List.mem_cons_of_mem _ hx)),
        stages_safe c (hsafe c (List.mem_cons_self _ _))]
  rw [hstages]
  unfold bracketRestore
  apply bracketRestoreAux_id
  intro x hx
  simp only [List.mem_flatMap] at hx
  obtain ⟨c, hc, hxc⟩ := hx
  exact likeTr_no_bracket c (hsafe c hc) x hxc


theorem applyQuant_cons (a : RAtom) (c : Char) (cs : List Char) :
    applyQuant a (c :: cs) =
      if c = '*' then (RPiece.star a, cs)
      else if c = '?' then (RPiece.opt a, cs)
      else (RPiece.once a, c :: cs) := rfl

theorem applyQuant_no_quant (a : RAtom) (cs : List Char)
    (h : ∀ c, cs.head? = some c → c ≠ '*' ∧ c ≠ '?') :
    applyQuant a cs = (RPiece.once a, cs) := by
  cases cs with
  | nil => rfl
  | cons c cs2 =>
    obtain ⟨h1, h2⟩ := h c rfl
    rw [applyQuant_cons, if_neg h1, if_neg h2]

theorem likeTr_head (c : Char) (hc : c5Safe c) :
    ∃ h t, likeTr c = h :: t ∧ h ≠ '*' ∧ h ≠ '?' := by
  obtain ⟨h1, h2, _, _, _⟩ := hc
  unfold likeTr
  by_cases hsp : isRegexSpecial c = true
  · rw [if_pos hsp]
    exact ⟨'\\', [c], rfl, by decide, by decide⟩
  · rw [if_neg hsp]
    by_cases hpc : c = '%'
    · rw [if_pos hpc]
      exact ⟨'.', ['*'], rfl, by decide, by decide⟩
    · rw [if_neg hpc]
      by_cases huc : c = '_'
      · rw [if_pos huc]
        exact ⟨'.', [], rfl, by decide, by decide⟩
      · rw [if_neg huc]
        exact ⟨c, [], rfl, h1, h2⟩

theorem likeTr_flat_head (p : List Char) (hsafe : ∀ c ∈ p, c5Safe c) :
    ∀ c, (p.flatMap likeTr).head? = some c → c ≠ '*' ∧ c ≠ '?' := by
  cases p with
  | nil => intro c hc; simp at hc
  | cons c0 p' =>
    intro c hc
    obtain ⟨h, t, hht, hq1, hq2⟩ := likeTr_head c0 (hsafe c0 (List.mem_cons_self _ _))
    rw [List.flatMap_cons, hht, List.cons_append, List.head?_cons] at hc
    cases hc
    exact ⟨hq1, hq2⟩

theorem likeTr_length_pos (c : Char) (hc : c5Safe c) :
    0 < (likeTr c).length := by
  obtain ⟨h, t, hht, _, _⟩ := likeTr_head c hc
  rw [hht]
  simp

theorem parseRegex_likeTr : ∀ (p : List Char), (∀ c ∈ p, c5Safe c) →
    ∀ fuel, (p.flatMap likeTr).length < fuel →
    parseRegex fuel (p.flatMap likeTr) = some (p.map likePc) := by
  intro p
  induction p with
  | nil =>
    intro _ fuel hfuel
    obtain ⟨f, rfl⟩ : ∃ f, fuel = f + 1 := ⟨fuel - 1, by omega⟩
    rfl
  | cons c0 p' ih =>
    intro hsafe fuel hfuel
    obtain ⟨hn1, hn2, hn3, hn4, hn5⟩ := hsafe c0 (List.mem_cons_self _ _)
    obtain ⟨f, rfl⟩ : ∃ f, fuel = f + 1 := ⟨fuel - 1, by omega⟩
    have hsafe' : ∀ c ∈ p', c5Safe c :=
      fun c hc => hsafe c (List.mem_cons_of_mem _ hc)
    have hhead := likeTr_flat_head p' hsafe'
    have hlen : (p'.flatMap likeTr).length < f := by
      rw [List.flatMap_cons, List.length_append] at hfuel
      have := likeTr_length_pos c0 ⟨hn1, hn2, hn3, hn4, hn5⟩
      omega
    have hrec := ih hsafe' f hlen
    rw [List.flatMap_cons, List.map_cons]
    by_cases hsp : isRegexSpecial c0 = true
    · rw [show likeTr c0 = ['\\', c0] from by rw [likeTr, if_pos hsp]]
      simp only [List.cons_append, List.nil_append]
      conv_lhs => rw [parseRegex.eq_def]
      dsimp only
      rw [if_neg (by decide), if_pos rfl]
      rw [applyQuant_no_quant _ _ hhead]
      dsimp only
      rw [hrec]
      dsimp only
      rw [show likePc c0 = RPiece.once (RAtom.ch c0) from by
        rw [likePc, if_pos hsp]]
    · have hnd : c0 ≠ '.' := by
        intro hcon
        subst hcon
        exact absurd hsp (by decide)
      by_cases hpc : c0 = '%'
      · subst hpc
        rw [show likeTr '%' = ['.', '*'] from rfl]
        simp only [List.cons_append, List.nil_append]
        conv_lhs => rw [parseRegex.eq_def]
        dsimp only
        rw [if_neg (by decide), if_neg (by decide), if_neg (by decide)]
        rw [if_pos rfl, applyQuant_cons, if_pos rfl]
        dsimp only
        rw [hrec]
        dsimp only
        rw [show likePc '%' = RPiece.star RAtom.dot from rfl]
      · by_cases huc : c0 = '_'
        · subst huc
          rw [show likeTr '_' = ['.'] from rfl]
          simp only [List.cons_append, List.nil_append]
          conv_lhs => rw [parseRegex.eq_def]
          dsimp only
          rw [if_neg (by decide), if_neg (by decide), if_neg (by decide)]
          rw [if_pos rfl, applyQuant_no_quant _ _ hhead]
          dsimp only
          rw [hrec]
          dsimp only
          rw [show likePc '_' = RPiece.once RAtom.dot from rfl]
        · rw [show likeTr c0 = [c0] from by
            rw [likeTr, if_neg (by rw [show isRegexSpecial c0 = false from by
              cases hb : isRegexSpecial c0
              · rfl
              · exact absurd hb hsp]; simp), if_neg hpc, if_neg huc]]
          simp only [List.cons_append, List.nil_append]
          conv_lhs => rw [parseRegex.eq_def]
          dsimp only
          rw [if_neg (fun hcon => hcon.elim hn1 hn2), if_neg hn5, if_neg hn3]
          rw [if_neg hnd, applyQuant_no_quant _ _ hhead]
          dsimp only
          rw [hrec]
          dsimp only
          rw [show likePc c0 = RPiece.once (RAtom.ch c0) from by
            rw [likePc, if_neg hsp, if_neg hpc, if_neg huc]]

theorem rmatchStar_congr (m1 m2 : Char → Bool) (n1 n2 : List Char → Bool)
    (hm : ∀ k, m1 k = m2 k) (hn : ∀ ks, n1 ks = n2 ks) :
    ∀ ks, rmatchStar m1 n1 ks = rmatchStar m2 n2 ks := by
  intro ks
  induction ks with
  | nil => exact hn []
  | cons k ks ih => rw [rmatchStar, rmatchStar, hn, hm, ih]

theorem rmatch_likePc (p : List Char) (hsafe : ∀ c ∈ p, c5Safe c) :
    ∀ key, rmatchPieces (p.map likePc) key = likeMatch p key := by
  induction p with
  | nil => intro key; rfl
  | cons c0 p' ih =>
    intro key
    have ih' := ih (fun c hc => hsafe c (List.mem_cons_of_mem _ hc))
    rw [List.map_cons]
    by_cases hsp : isRegexSpecial c0 = true
    · have hcnp : c0 ≠ '%' := by
        intro hcon; subst hcon; exact absurd hsp (by decide)
      have hcnu : c0 ≠ '_' := by
        intro hcon; subst hcon; exact absurd hsp (by decide)
      rw [show likePc c0 = RPiece.once (RAtom.ch c0) from by
        rw [likePc, if_pos hsp]]
      conv_lhs => rw [rmatchPieces.eq_def]
      conv_rhs => rw [likeMatch.eq_def]
      dsimp only
      rw [if_neg hcnp, if_neg hcnu]
      cases key with
      | nil => rfl
      | cons k ks =>
        dsimp only
        rw [ih']
        rfl
    · by_cases hpc : c0 = '%'
      · subst hpc
        rw [show likePc '%' = RPiece.star RAtom.dot from rfl]
        conv_lhs => rw [rmatchPieces.eq_def]
        conv_rhs => rw [likeMatch.eq_def]
        dsimp only
        rw [if_pos rfl]
        exact rmatchStar_congr _ _ _ _ (fun k => rfl) ih' key
      · by_cases huc : c0 = '_'
        · subst huc
          rw [show likePc '_' = RPiece.once RAtom.dot from rfl]
          conv_lhs => rw [rmatchPieces.eq_def]
          conv_rhs => rw [likeMatch.eq_def]
          dsimp only
          rw [if_neg (by decide), if_pos rfl]
          cases key with
          | nil => rfl
          | cons k ks =>
            dsimp only
            rw [ih']
            rfl
        · rw [show likePc c0 = RPiece.once (RAtom.ch c0) from by
            rw [likePc, if_neg hsp, if_neg hpc, if_neg huc]]
          conv_lhs => rw [rmatchPieces.eq_def]
          conv_rhs => rw [likeMatch.eq_def]
          dsimp only
          rw [if_neg hpc, if_neg huc]
          cases key with
          | nil => rfl
          | cons k ks =>
            dsimp only
            rw [ih']
            rfl

/-- C5, amended.  For a pattern avoiding `* ? [ ] \`, likeToRegex compiles
and matches exactly LIKE semantics: `%` spans any characters, `_` any single
character (both excluding line terminators, the JavaScript `.` caveat), and
every other character — including the regex metacharacters the escape pass
covers — matches only itself.  The claim's full statement is refuted by
`c5_counterexample`: `*` and `?` stay quantifiers, and bracket patterns throw
instead of matching as classes. -/
theorem c5_amended (pattern : List Char)
    (hsafe : ∀ c ∈ pattern, c5Safe c) :
    ∃ pieces, likeToRegex pattern = some pieces ∧
      ∀ key, rmatchPieces pieces key = likeMatch pattern key := by
  refine ⟨pattern.map likePc, ?_, rmatch_likePc pattern hsafe⟩
  unfold likeToRegex
  rw [likeToRegexChars_safe pattern hsafe]
  exact parseRegex_likeTr pattern hsafe _ (by omega)

/-- C5, counterexample.  (1) The key "a*%" contains a wildcard, so expansion
compiles it; the claim requires `*` to be escaped so that "a*" matches only
literally, but the produced regular expression `^a*.*$` matches the store key
"b".  (2) The claim requires bracket classes to be preserved; instead the key
"[ab]" compiles to an invalid regular expression and the lookup throws. -/
theorem c5_counterexample :
    expandWildcard "a*%" [("b", 1)] = Except.ok ["b"] ∧
    expandWildcard "[ab]" [("a", 1)] =
      Except.error "Invalid regular expression" :=
  ⟨rfl, rfl⟩

theorem c5_amended_witness :
    (∀ c ∈ ['a', '%'], c5Safe c) ∧
    ∃ pieces, likeToRegex ['a', '%'] = some pieces ∧
      ∀ key, rmatchPieces pieces key = likeMatch ['a', '%'] key :=
  ⟨by decide, c5_amended ['a', '%'] (by decide)⟩


/-! ## Claim C6: positional results for wildcard-free key arrays -/

theorem collectRowInfosAux_lb (keyMap : List (String × Nat))
    (sm : StoreMetadata) : ∀ (keys : List String) (n : Nat)
    (p : RowMetadata × Nat), p ∈ collectRowInfosAux keyMap sm n keys →
    n ≤ p.2 ∧ p.2 < n + keys.length := by
  intro keys
  induction keys with
  | nil => intro n p hp; simp [collectRowInfosAux] at hp
  | cons key ks ih =>
    intro n p hp
    rw [collectRowInfosAux] at hp
    cases hfa : findActiveRowMetadata keyMap key sm.rows with
    | none =>
      rw [hfa] at hp
      have := ih (n + 1) p hp
      simp only [List.length_cons]
      omega
    | some r =>
      rw [hfa] at hp
      rcases List.mem_cons.mp hp with hp | hp
      · subst hp
        simp only [List.length_cons]
        omega
      · have := ih (n + 1) p hp
        simp only [List.length_cons]
        omega

theorem collectRowInfosAux_pairwise (keyMap : List (String × Nat))
    (sm : StoreMetadata) : ∀ (keys : List String) (n : Nat),
    List.Pairwise (fun a b => a.2 < b.2)
      (collectRowInfosAux keyMap sm n keys) := by
  intro keys
  induction keys with
  | nil => intro n; exact List.Pairwise.nil
  | cons key ks ih =>
    intro n
    rw [collectRowInfosAux]
    cases hfa : findActiveRowMetadata keyMap key sm.rows with
    | none => exact ih (n + 1)
    | some r =>
      refine List.Pairwise.cons ?_ (ih (n + 1))
      intro p hp
      have := collectRowInfosAux_lb keyMap sm ks (n + 1) p hp
      omega

theorem collectRowInfosAux_at (keyMap : List (String × Nat))
    (sm : StoreMetadata) : ∀ (keys : List String) (n j : Nat),
    j < keys.length →
    (findActiveRowMetadata keyMap (keys.getD j "") sm.rows = none →
      ∀ p ∈ collectRowInfosAux keyMap sm n keys, p.2 ≠ n + j) ∧
    (∀ r, findActiveRowMetadata keyMap (keys.getD j "") sm.rows = some r →
      (r, n + j) ∈ collectRowInfosAux keyMap sm n keys) := by
  intro keys
  induction keys with
  | nil => intro n j hj; simp at hj
  | cons key ks ih =>
    intro n j hj
    cases j with
    | zero =>
      constructor
      · intro hnone p hp
        rw [collectRowInfosAux] at hp
        simp only [List.getD_cons_zero] at hnone
        rw [hnone] at hp
        have := collectRowInfosAux_lb keyMap sm ks (n + 1) p hp
        omega
      · intro r hsome
        rw [collectRowInfosAux]
        simp only [List.getD_cons_zero] at hsome
        rw [hsome]
        simp
    | succ j' =>
      have hj' : j' < ks.length := by
        simp only [List.length_cons] at hj
        omega
      have hrec := ih (n + 1) j' hj'
      constructor
      · intro hnone p hp
        simp only [List.getD_cons_succ] at hnone
        rw [collectRowInfosAux] at hp
        cases hfa : findActiveRowMetadata keyMap key sm.rows with
        | none =>
          rw [hfa] at hp
          have := hrec.1 hnone p hp
          omega
        | some r =>
          rw [hfa] at hp
          rcases List.mem_cons.mp hp with hp | hp
          · subst hp
            omega
          · have := hrec.1 hnone p hp
            omega
      · intro r hsome
        simp only [List.getD_cons_succ] at hsome
        rw [collectRowInfosAux]
        have := hrec.2 r hsome
        cases hfa : findActiveRowMetadata keyMap key sm.rows with
        | none =>
          have heq : n + 1 + j' = n + (j' + 1) := by omega
          rw [heq] at this
          exact this
        | some r0 =>
          have heq : n + 1 + j' = n + (j' + 1) := by omega
          rw [heq] at this
          exact List.mem_cons_of_mem _ this

theorem except_error_bind {ε α β : Type} (e : ε) (k : α → Except ε β) :
    (Except.error e >>= k : Except ε β) = Except.error e := rfl

theorem except_ok_bind {ε α β : Type} (a : α) (k : α → Except ε β) :
    (Except.ok a >>= k : Except ε β) = k a := rfl

theorem getD_replicate_none (n j : Nat) :
    (List.replicate n (none : Option Value)).getD j none = none := by
  rw [List.getD_eq_getD_get?, List.get?_eq_getElem?]
  cases h : (List.replicate n (none : Option Value))[j]? with
  | none => rfl
  | some x =>
    obtain ⟨hlt, hx⟩ := List.getElem?_eq_some.mp h
    rw [← hx, List.getElem_replicate]
    rfl

theorem readAllRows_fold_spec (sm : StoreMetadata) :
    ∀ (infos : List (RowMetadata × Nat)) (acc res : List (Option Value)),
    List.Pairwise (fun a b => a.2 < b.2) infos →
    (∀ p ∈ infos, p.2 < acc.length) →
    infos.foldlM (fun results info =>
      (deserializeData sm (rowBytes sm info.1)).map
        (fun v => results.set info.2 (some v))) acc = Except.ok res →
    res.length = acc.length ∧
    (∀ j, (∀ p ∈ infos, p.2 ≠ j) → res.getD j none = acc.getD j none) ∧
    (∀ p ∈ infos, ∃ v, deserializeData sm (rowBytes sm p.1) = Except.ok v ∧
      res.getD p.2 none = some v) := by
  intro infos
  induction infos with
  | nil =>
    intro acc res _ _ hfold
    simp only [List.foldlM_nil] at hfold
    cases hfold
    exact ⟨rfl, fun j _ => rfl, fun p hp => by simp at hp⟩
  | cons info infos ih =>
    intro acc res hpw hbound hfold
    rw [List.foldlM_cons] at hfold
    cases hdes : deserializeData sm (rowBytes sm info.1) with
    | error e =>
      rw [hdes] at hfold
      rw [show Except.map (fun v => acc.set info.2 (some v))
          (Except.error (ε := String) e) = Except.error e from rfl,
        except_error_bind] at hfold
      simp at hfold
    | ok v =>
      rw [hdes] at hfold
      rw [show Except.map (fun w => acc.set info.2 (some w))
          (Except.ok (ε := String) v) = Except.ok (acc.set info.2 (some v))
          from rfl, except_ok_bind] at hfold
      have hfold2 : infos.foldlM (fun results i2 =>
          (deserializeData sm (rowBytes sm i2.1)).map
            (fun w => results.set i2.2 (some w)))
          (acc.set info.2 (some v)) = Except.ok res := hfold
      have hpw2 := (List.pairwise_cons.mp hpw).2
      have hhead := (List.pairwise_cons.mp hpw).1
      have hbound2 : ∀ p ∈ infos, p.2 < (acc.set info.2 (some v)).length := by
        intro p hp
        rw [List.length_set]
        exact hbound p (List.mem_cons_of_mem _ hp)
      obtain ⟨hlen, huntouched, hmembers⟩ := ih _ res hpw2 hbound2 hfold2
      rw [List.length_set] at hlen
      refine ⟨hlen, ?_, ?_⟩
      · intro j hj
        have hne : info.2 ≠ j := hj info (List.mem_cons_self _ _)
        rw [huntouched j (fun p hp => hj p (List.mem_cons_of_mem _ hp))]
        rw [List.getD_eq_getD_get?, List.getD_eq_getD_get?,
          List.get?_eq_getElem?, List.get?_eq_getElem?,
          List.getElem?_set_ne hne]
      · intro p hp
        rcases List.mem_cons.mp hp with hp | hp
        · subst hp
          refine ⟨v, hdes, ?_⟩
          have hne : ∀ q ∈ infos, q.2 ≠ p.2 := by
            intro q hq
            have := hhead q hq
            omega
          rw [huntouched p.2 hne]
          rw [List.getD_eq_getD_get?, List.get?_eq_getElem?,
            List.getElem?_set_self (hbound p (List.mem_cons_self _ _))]
          rfl
        · exact hmembers p hp

theorem readAllRows_spec (sm : StoreMetadata) (keyMap : List (String × Nat))
    (keys : List String) (res : List (Option Value))
    (hok : readAllRows sm keyMap keys = Except.ok res) :
    res.length = keys.length ∧
    ∀ j, j < keys.length →
      res.getD j none =
        (match findActiveRowMetadata keyMap (keys.getD j "") sm.rows with
         | none => none
         | some r => (deserializeData sm (rowBytes sm r)).toOption) := by
  unfold readAllRows collectRowInfos at hok
  have hbound : ∀ p ∈ collectRowInfosAux keyMap sm 0 keys,
      p.2 < (List.replicate keys.length (none : Option Value)).length := by
    intro p hp
    rw [List.length_replicate]
    have := collectRowInfosAux_lb keyMap sm keys 0 p hp
    omega
  obtain ⟨hlen, huntouched, hmembers⟩ := readAllRows_fold_spec sm _ _ res
    (collectRowInfosAux_pairwise keyMap sm keys 0) hbound hok
  rw [List.length_replicate] at hlen
  refine ⟨hlen, ?_⟩
  intro j hj
  obtain ⟨hnone, hsome⟩ := collectRowInfosAux_at keyMap sm keys 0 j hj
  cases hfa : findActiveRowMetadata keyMap (keys.getD j "") sm.rows with
  | none =>
    have hn : ∀ p ∈ collectRowInfosAux keyMap sm 0 keys, p.2 ≠ j := by
      intro p hp
      have := hnone hfa p hp
      omega
    rw [huntouched j hn, getD_replicate_none]
  | some r =>
    have hmem : (r, 0 + j) ∈ collectRowInfosAux keyMap sm 0 keys := hsome r hfa
    obtain ⟨v, hdes, hres⟩ := hmembers (r, 0 + j) hmem
    dsimp only at hdes hres
    rw [show (0 : Nat) + j = j from by omega] at hres
    rw [hres]
    dsimp only
    rw [hdes]
    rfl


theorem expandWildcard_plain (key : String) (keyMap : List (String × Nat))
    (h : hasWildcard key.data = false) :
    expandWildcard key keyMap = Except.ok [key] := by
  unfold expandWildcard
  rw [if_neg (by rw [h]; simp)]

theorem expandAllWildcards_id (keys : List String)
    (keyMap : List (String × Nat))
    (hnw : ∀ k ∈ keys, hasWildcard k.data = false) :
    expandAllWildcards keys keyMap = Except.ok keys := by
  unfold expandAllWildcards
  suffices hgen : ∀ (ks : List String), (∀ k ∈ ks, hasWildcard k.data = false) →
      ∀ acc : List String, ks.foldlM (fun acc key =>
        (expandWildcard key keyMap).map (fun e => acc ++ e)) acc =
        Except.ok (acc ++ ks) by
    have := hgen keys hnw []
    simpa using this
  intro ks
  induction ks with
  | nil =>
    intro _ acc
    rw [List.foldlM_nil, List.append_nil]
    rfl
  | cons k ks ih =>
    intro hnw acc
    rw [List.foldlM_cons,
      expandWildcard_plain k keyMap (hnw k (List.mem_cons_self _ _))]
    rw [show Except.map (fun e => acc ++ e)
        (Except.ok (ε := String) [k]) = Except.ok (acc ++ [k]) from rfl,
      except_ok_bind]
    rw [ih (fun x hx => hnw x (List.mem_cons_of_mem _ hx)) (acc ++ [k])]
    simp

/-- C6: a getMultiple lookup whose keys contain no wildcard character
returns one entry per key, in key order: position i holds the decoded value
of the active row of key i, or null when the key has no active row. -/
theorem c6_no_wildcard_positions (db : VramDataBase) (storeName : String)
    (keys : List String) (sm : StoreMetadata)
    (results : List (Option Value))
    (hnw : ∀ k ∈ keys, hasWildcard k.data = false)
    (hsm : mapGet (flushWrites db).storeMetadataMap storeName = some sm)
    (hok : (getMultipleByKeysOp db storeName keys).2 = Except.ok results) :
    results.length = keys.length ∧
    ∀ j, j < keys.length →
      results.getD j none =
        (match findActiveRowMetadata
            ((mapGet (flushWrites db).storeKeyMap storeName).getD [])
            (keys.getD j "") sm.rows with
         | none => none
         | some r => (deserializeData sm (rowBytes sm r)).toOption) := by
  unfold getMultipleByKeysOp at hok
  dsimp only at hok
  rw [hsm] at hok
  dsimp only at hok
  rw [expandAllWildcards_id keys _ hnw] at hok
  dsimp only at hok
  exact readAllRows_spec sm _ keys results hok

theorem c6_no_wildcard_positions_witness :
    ([some (Value.bytes [0, 0, 0, 0]), none] : List (Option Value)).length =
      (["k", "missing"] : List String).length ∧
    ∀ j, j < (["k", "missing"] : List String).length →
      ([some (Value.bytes [0, 0, 0, 0]), none] :
          List (Option Value)).getD j none =
        (match findActiveRowMetadata
            ((mapGet (flushWrites dbC2).storeKeyMap "S").getD [])
            ((["k", "missing"] : List String).getD j "") storeC2.rows with
         | none => none
         | some r => (deserializeData storeC2 (rowBytes storeC2 r)).toOption) :=
  c6_no_wildcard_positions dbC2 "S" ["k", "missing"] storeC2
    [some (Value.bytes [0, 0, 0, 0]), none] (by decide) rfl rfl


/-! ## Claim C10: non-matching wildcard keys contribute nothing -/

theorem expandAllWildcards_drop (keys1 keys2 : List String) (w : String)
    (keyMap : List (String × Nat))
    (hw : expandWildcard w keyMap = Except.ok []) :
    expandAllWildcards (keys1 ++ w :: keys2) keyMap =
      expandAllWildcards (keys1 ++ keys2) keyMap := by
  unfold expandAllWildcards
  rw [List.foldlM_append, List.foldlM_append]
  cases hacc : keys1.foldlM (fun acc key =>
      (expandWildcard key keyMap).map (fun e => acc ++ e))
      ([] : List String) with
  | error e => rw [except_error_bind, except_error_bind]
  | ok acc =>
    rw [except_ok_bind, except_ok_bind, List.foldlM_cons, hw]
    rw [show Except.map (fun e => acc ++ e)
        (Except.ok (ε := String) ([] : List String)) = Except.ok (acc ++ [])
        from rfl, except_ok_bind, List.append_nil]

/-- C10: in a getMultiple by keys, a wildcard key that matches no live store
key expands to the empty list: it contributes zero entries and leaves no null
placeholder (the whole lookup behaves as if the key were absent), so when the
other keys are wildcard-free the result array is strictly shorter than the
input key array. -/
theorem c10_nonmatching_wildcard (db : VramDataBase) (storeName : String)
    (keys1 keys2 : List String) (w : String) (pieces : List RPiece)
    (hw : hasWildcard w.data = true)
    (hre : likeToRegex w.data = some pieces)
    (hnm : ∀ k ∈ mapKeys
      ((mapGet (flushWrites db).storeKeyMap storeName).getD []),
      rmatchPieces pieces k.data = false) :
    expandWildcard w
      ((mapGet (flushWrites db).storeKeyMap storeName).getD []) =
      Except.ok [] ∧
    (getMultipleByKeysOp db storeName (keys1 ++ w :: keys2)).2 =
      (getMultipleByKeysOp db storeName (keys1 ++ keys2)).2 ∧
    (∀ sm results,
      mapGet (flushWrites db).storeMetadataMap storeName = some sm →
      (∀ k ∈ keys1 ++ keys2, hasWildcard k.data = false) →
      (getMultipleByKeysOp db storeName (keys1 ++ w :: keys2)).2 =
        Except.ok results →
      results.length = keys1.length + keys2.length) := by
  have hexp : expandWildcard w
      ((mapGet (flushWrites db).storeKeyMap storeName).getD []) =
      Except.ok [] := by
    unfold expandWildcard
    rw [if_pos hw, hre]
    dsimp only
    congr 1
    rw [List.filter_eq_nil_iff]
    intro k hk
    rw [hnm k hk]
    simp
  have h2 : (getMultipleByKeysOp db storeName (keys1 ++ w :: keys2)).2 =
      (getMultipleByKeysOp db storeName (keys1 ++ keys2)).2 := by
    unfold getMultipleByKeysOp
    dsimp only
    cases hsm : mapGet (flushWrites db).storeMetadataMap storeName with
    | none => rfl
    | some sm =>
      rw [expandAllWildcards_drop keys1 keys2 w _ hexp]
  refine ⟨hexp, h2, ?_⟩
  intro sm results hsm hnw hok
  rw [h2] at hok
  unfold getMultipleByKeysOp at hok
  dsimp only at hok
  rw [hsm] at hok
  dsimp only at hok
  rw [expandAllWildcards_id _ _ hnw] at hok
  dsimp only at hok
  have hlen := (readAllRows_spec sm _ _ results hok).1
  rw [List.length_append] at hlen
  exact hlen

theorem c10_nonmatching_wildcard_witness :
    expandWildcard "z%"
      ((mapGet (flushWrites dbC2).storeKeyMap "S").getD []) =
      Except.ok [] ∧
    (getMultipleByKeysOp dbC2 "S" (["k"] ++ "z%" :: [])).2 =
      (getMultipleByKeysOp dbC2 "S" (["k"] ++ [])).2 ∧
    (∀ sm results,
      mapGet (flushWrites dbC2).storeMetadataMap "S" = some sm →
      (∀ k ∈ (["k"] : List String) ++ [], hasWildcard k.data = false) →
      (getMultipleByKeysOp dbC2 "S" (["k"] ++ "z%" :: [])).2 =
        Except.ok results →
      results.length = (["k"] : List String).length +
        ([] : List String).length) :=
  c10_nonmatching_wildcard dbC2 "S" ["k"] [] "z%"
    [RPiece.once (RAtom.ch 'z'), RPiece.star RAtom.dot]
    (by decide) rfl (by decide)

end JsonDb
